import Mathlib

/-!
Verification of the abra action extractor (src/cli/index.js).

The core of the program is `serializeType`, a recursive serializer that turns
an opaque TypeScript type handle into a JSON-compatible schema value, guarded
against cycles by a per-path visited set and deduplicating named-type
expansion through a run-global processed-names set.  `generateActionsJson`
drives it: it expands every collected exported type declaration into a
registry and derives per-action descriptions from marker comments.

Embedding conventions:
* A type handle is a `TypeNode`; the heap of type objects is a `List TypeNode`
  and handles reference each other by list index (`Nat`), which lets the
  embedding represent the cyclic type graphs the JavaScript heap can hold.
* The host type system (the TypeScript compiler) is an external collaborator;
  per the interface it must provide, each node carries its classification
  data as fields (primitive flags, literal kind, union members, array element,
  property enumeration, fallback rendering).  A property whose type
  resolution throws carries `none` for its resolved type.
* `Math.random().toString(36).substring(7)` is modelled by an explicit token
  oracle `Nat → String` together with a counter in the threaded state; the
  JavaScript `Set` of visited identities becomes a list of `Sum Nat String`
  values (numeric ids from `type.id` / `type.symbol.id`, string tokens from
  the oracle), and the run-global mutable `processedTypes` set is threaded
  through the state.
* Divergence of the JavaScript recursion is modelled by fuel: `none` means
  the computation does not finish within the given fuel.
-/

namespace Abra

/-- JSON-compatible schema values produced by the serializer (spec §3
`SchemaValue`).  `arr v` stands for the descriptor `{ type: "array",
items: v }`; `obj` keeps fields in insertion order; numeric literal values
are carried verbatim (modelled as integers). -/
inductive SchemaValue where
  | str (s : String)
  | num (v : Int)
  | bool (b : Bool)
  | strList (ss : List String)
  | arr (items : SchemaValue)
  | obj (fields : List (String × SchemaValue))

/-- Identity of a type handle as used by the cycle guard: a numeric id from
`type.id` or `type.symbol.id`, or a string token generated for handles
lacking a stable identity. -/
abbrev TypeId := Sum Nat String

/-- A symbol attached to a type (`type.symbol`): optional numeric id and
name.  JavaScript treats the id `0` and the name `""` as falsy; the code
below reproduces that. -/
structure Sym where
  sid : Option Nat
  name : String
deriving DecidableEq

/-- A property symbol as the serializer consumes it: its name, whether
`isLikelyMethod` classifies it as a method (its type has call signatures),
and the handle produced by `getTypeOfSymbolAtLocation`; `none` models the
resolution throwing (caught per property in the source). -/
structure PropSym where
  name : String
  isMethod : Bool
  ty : Option Nat
deriving DecidableEq

/-- A type handle: one node of the host type system's graph, carrying every
facet `serializeType` queries, in the shape the source reads them. -/
structure TypeNode where
  id : Option Nat
  symbol : Option Sym
  fStr : Bool
  fNum : Bool
  fBool : Bool
  fNull : Bool
  fUndef : Bool
  fAny : Bool
  fUnknown : Bool
  fBoolLit : Bool
  isLiteral : Bool
  isStringLiteral : Bool
  isNumberLiteral : Bool
  litStr : String
  litNum : Int
  intrinsicName : String
  union : Option (List Nat)
  isArrayType : Bool
  typeArgs : Option (List Nat)
  props : Option (List PropSym)
  toStr : String

/-- A node with every facet absent/false: convenient base for building
concrete handles. -/
def N0 : TypeNode :=
  { id := none, symbol := none, fStr := false, fNum := false, fBool := false,
    fNull := false, fUndef := false, fAny := false, fUnknown := false,
    fBoolLit := false, isLiteral := false, isStringLiteral := false,
    isNumberLiteral := false, litStr := "", litNum := 0, intrinsicName := "",
    union := none, isArrayType := false, typeArgs := none, props := none,
    toStr := "" }

/-- One collected exported type declaration (`typeDefinitions` entry):
name, handle (index into the heap), source file. -/
structure TDef where
  name : String
  ref : Nat
  file : String
deriving DecidableEq

/-- The run-global state threaded through serialization: the mutable
`processedTypes` set of names and the number of random tokens drawn so far
(the oracle counter). -/
structure SerState where
  processed : List String
  k : Nat
deriving DecidableEq

/-- JavaScript `s.startsWith(pre)`, modelled on the character lists of the
two strings. -/
def jsStartsWith (s pre : String) : Bool :=
  pre.toList.isPrefixOf s.toList

/-- Membership test in the visited-identity set (JavaScript `Set.has`). -/
def elemId (x : TypeId) : List TypeId → Bool
  | [] => false
  | y :: ys => if x = y then true else elemId x ys

/-- Membership test in the processed-names set (JavaScript `Set.has`). -/
def elemStr (x : String) : List String → Bool
  | [] => false
  | y :: ys => if x = y then true else elemStr x ys

/-- Source `isBuiltInType` (src/cli/index.js lines 374-382). -/
def isBuiltInType (typeName : String) : Bool :=
  ["Array", "String", "Number", "Boolean", "Object", "Function",
   "Promise", "Date", "RegExp", "Error", "Map", "Set", "Symbol",
   "Iterator", "Generator"].contains typeName || typeName == "__type"

/-- Draw a fresh token from the oracle (models
`Math.random().toString(36).substring(7)`). -/
def freshToken (oracle : Nat → String) (st : SerState) : TypeId × SerState :=
  (Sum.inr (oracle st.k), { st with k := st.k + 1 })

/-- Source line 224: `type.id || (type.symbol && type.symbol.id) ||
Math.random().toString(36).substring(7)`, including JavaScript's falsiness
of the number `0`. -/
def getTypeId (oracle : Nat → String) (n : TypeNode) (st : SerState) :
    TypeId × SerState :=
  match n.id with
  | some i =>
    if i != 0 then (Sum.inl i, st)
    else
      match n.symbol with
      | some s =>
        match s.sid with
        | some j => if j != 0 then (Sum.inl j, st) else freshToken oracle st
        | none => freshToken oracle st
      | none => freshToken oracle st
  | none =>
    match n.symbol with
    | some s =>
      match s.sid with
      | some j => if j != 0 then (Sum.inl j, st) else freshToken oracle st
      | none => freshToken oracle st
    | none => freshToken oracle st

/-- JavaScript object property assignment `o[k] = v`: replace in place if the
key exists, else append (insertion order preserved). -/
def setKey : List (String × SchemaValue) → String → SchemaValue →
    List (String × SchemaValue)
  | [], k, v => [(k, v)]
  | (k', v') :: rest, k, v =>
    if k' == k then (k', v) :: rest else (k', v') :: setKey rest k v

/-- The property-enumeration loop shared by the named-type branch (source
lines 260-282) and the generic-object branch (lines 343-365): skip
`__`-prefixed and method properties; a property whose resolution threw is
omitted (the source catches and warns); otherwise recurse with a fresh copy
of the visited set (the same `visited` is given to every sibling). `none`
propagates divergence of a recursive call. -/
def propsLoop (rec : Option Nat → List TypeId → SerState →
      Option (SchemaValue × SerState)) (visited : List TypeId) :
    List PropSym → SerState → List (String × SchemaValue) →
    Option (List (String × SchemaValue) × SerState)
  | [], st, acc => some (acc, st)
  | p :: ps, st, acc =>
    if jsStartsWith p.name "__" || p.isMethod then
      propsLoop rec visited ps st acc
    else
      match p.ty with
      | none => propsLoop rec visited ps st acc
      | some r =>
        match rec (some r) visited st with
        | none => none
        | some (v, st') => propsLoop rec visited ps st' (setKey acc p.name v)

/-- Union branch (source lines 289-314): all-string-literal unions become the
ordered list of their literal values; two boolean literals collapse to
`"boolean"`; otherwise the first member that is neither undefined nor null
is recursed into alone; an all-null/undefined union gives `"any"`. -/
def unionBranch (rec : Option Nat → List TypeId → SerState →
      Option (SchemaValue × SerState)) (env : List TypeNode)
    (members : List Nat) (visited : List TypeId) (st : SerState) :
    Option (SchemaValue × SerState) :=
  if members.all (fun m => ((env[m]?).map TypeNode.isStringLiteral).getD false) then
    some (.strList (members.map (fun m => ((env[m]?).map TypeNode.litStr).getD "")), st)
  else if members.length == 2 &&
      members.all (fun m => ((env[m]?).map TypeNode.fBoolLit).getD false) then
    some (.str "boolean", st)
  else
    match members.find? (fun m =>
        !(((env[m]?).map (fun t => t.fUndef || t.fNull)).getD false)) with
    | some m => rec (some m) visited st
    | none => some (.str "any", st)

/-- Array branch (source lines 316-335): serialize the first type argument;
`typeArgs = none` models `getTypeArguments` throwing, caught and degraded to
`items: "any"`. An absent element handle also serializes to `"any"`. -/
def arrayBranch (rec : Option Nat → List TypeId → SerState →
      Option (SchemaValue × SerState)) (n : TypeNode) (visited : List TypeId)
    (st : SerState) : Option (SchemaValue × SerState) :=
  match n.typeArgs with
  | none => some (.arr (.str "any"), st)
  | some args =>
    match rec args.head? visited st with
    | none => none
    | some (v, st') => some (.arr v, st')

/-- Generic-object branch and fallback (source lines 337-371): a type that
exposes a nonempty property enumeration is expanded like a named record but
without registry bookkeeping; everything else renders as its human-readable
signature. -/
def objectOrFallback (rec : Option Nat → List TypeId → SerState →
      Option (SchemaValue × SerState)) (n : TypeNode) (visited : List TypeId)
    (st : SerState) : Option (SchemaValue × SerState) :=
  match n.props with
  | some ps =>
    if ps.length != 0 then
      match propsLoop rec visited ps st [] with
      | none => none
      | some (fields, st') => some (.obj fields, st')
    else some (.str n.toStr, st)
  | none => some (.str n.toStr, st)

/-- Classification after the named-type branch, in source order: union
(line 289), then array (line 316), then generic object / fallback. -/
def afterNamed (rec : Option Nat → List TypeId → SerState →
      Option (SchemaValue × SerState)) (env : List TypeNode) (n : TypeNode)
    (visited : List TypeId) (st : SerState) : Option (SchemaValue × SerState) :=
  match n.union with
  | some ms => unionBranch rec env ms visited st
  | none =>
    if n.isArrayType then arrayBranch rec n visited st
    else objectOrFallback rec n visited st

/-- Named-type branch (source lines 246-287): a type with a truthy,
non-built-in symbol name matching a collected definition not yet in
`processedTypes` marks the name processed and expands the registry entry's
own properties; every other case falls through to `afterNamed`.  Note the
source adds the name to `processedTypes` before checking that the registry
entry exposes property enumeration, so the fall-through after a propless
entry keeps the name marked. -/
def namedOrRest (rec : Option Nat → List TypeId → SerState →
      Option (SchemaValue × SerState)) (env : List TypeNode)
    (tdefs : List TDef) (n : TypeNode) (visited : List TypeId)
    (st : SerState) : Option (SchemaValue × SerState) :=
  match n.symbol with
  | none => afterNamed rec env n visited st
  | some s =>
    if s.name != "" && !(isBuiltInType s.name) then
      match tdefs.find? (fun d => d.name == s.name && !(isBuiltInType s.name)) with
      | none => afterNamed rec env n visited st
      | some ti =>
        if elemStr s.name st.processed then afterNamed rec env n visited st
        else
          let st2 := { st with processed := s.name :: st.processed }
          match (env[ti.ref]?).bind TypeNode.props with
          | some ps =>
            match propsLoop rec visited ps st2 [] with
            | none => none
            | some (fields, st3) => some (.obj fields, st3)
          | none => afterNamed rec env n visited st2
    else afterNamed rec env n visited st

/-- Classification cascade on a non-null handle after the cycle guard
(source lines 231-244 followed by the named/union/array/object/fallback
chain), in strict source order. -/
def serializeKinds (rec : Option Nat → List TypeId → SerState →
      Option (SchemaValue × SerState)) (env : List TypeNode)
    (tdefs : List TDef) (n : TypeNode) (visited : List TypeId)
    (st : SerState) : Option (SchemaValue × SerState) :=
  if n.fStr then some (.str "string", st)
  else if n.fNum then some (.str "number", st)
  else if n.fBool then some (.str "boolean", st)
  else if n.fNull then some (.str "null", st)
  else if n.fUndef then some (.str "undefined", st)
  else if n.fAny || n.fUnknown then some (.str "any", st)
  else if n.isLiteral && n.isStringLiteral then some (.str n.litStr, st)
  else if n.isLiteral && n.isNumberLiteral then some (.num n.litNum, st)
  else if n.isLiteral && n.fBoolLit then
    some (.bool (n.intrinsicName == "true"), st)
  else namedOrRest rec env tdefs n visited st

/-- One step of `serializeType` (source lines 221-229 plus the cascade),
parameterised by the function used for recursive calls: null/absent handle
gives `"any"`; otherwise compute the handle's identity, return `"any"` if it
is already on the current path, else add it to this path's copy of the
visited set and classify. -/
def serializeStep (oracle : Nat → String) (env : List TypeNode)
    (tdefs : List TDef) (rec : Option Nat → List TypeId → SerState →
      Option (SchemaValue × SerState)) (t : Option Nat)
    (visited : List TypeId) (st : SerState) : Option (SchemaValue × SerState) :=
  match t with
  | none => some (.str "any", st)
  | some r =>
    match env[r]? with
    | none => some (.str "any", st)
    | some n =>
      match getTypeId oracle n st with
      | (tid, st1) =>
        if elemId tid visited then some (.str "any", st1)
        else serializeKinds rec env tdefs n (tid :: visited) st1

/-- Source `serializeType` (lines 221-372), with fuel making the JavaScript
function's potential divergence explicit: `none` means the recursion does
not complete within `fuel` nested calls. -/
def serializeType (oracle : Nat → String) (env : List TypeNode)
    (tdefs : List TDef) : Nat → Option Nat → List TypeId → SerState →
    Option (SchemaValue × SerState)
  | 0, _, _, _ => none
  | fuel + 1, t, visited, st =>
    serializeStep oracle env tdefs
      (fun t' v' st' => serializeType oracle env tdefs fuel t' v' st')
      t visited st

/-- The registry-expansion loop of `generateActionsJson` (source lines
120-135): each collected definition not already in `processedTypes` is
serialized with a fresh visited set and recorded as
`typeRegistry[name] = { structure, file }` (modelled as
`(name, (structure, file))`). -/
def registryLoop (oracle : Nat → String) (env : List TypeNode)
    (tdefs : List TDef) (fuel : Nat) :
    List TDef → List (String × SchemaValue × String) → SerState →
    Option (List (String × SchemaValue × String) × SerState)
  | [], reg, st => some (reg, st)
  | d :: ds, reg, st =>
    if elemStr d.name st.processed then
      registryLoop oracle env tdefs fuel ds reg st
    else
      match serializeType oracle env tdefs fuel (some d.ref) [] st with
      | none => none
      | some (v, st') =>
        registryLoop oracle env tdefs fuel ds (reg ++ [(d.name, v, d.file)]) st'

/-- The full registry pass: run the loop over all collected definitions
starting from an empty `processedTypes` set and oracle counter 0. -/
def buildTypeRegistry (oracle : Nat → String) (env : List TypeNode)
    (tdefs : List TDef) (fuel : Nat) :
    Option (List (String × SchemaValue × String) × SerState) :=
  registryLoop oracle env tdefs fuel tdefs [] ⟨[], 0⟩

/-! ### Description derivation (generateActionsJson, source lines 158-165)

The qualifying marker comment's text is turned into a description by
`commentText.replace('@abra-action', '').replace(/\/\*|\*\/|\/\//g, '').trim()`:
a string-pattern `replace` removes only the first occurrence of the marker,
the global regex removes every left-to-right occurrence of the three comment
delimiters, and the result is trimmed. -/

/-- JavaScript `text.replace(pat, '')` with a string pattern: delete the
first occurrence of `pat`, leave the text unchanged when absent. -/
def removeFirstSub (pat : List Char) : List Char → List Char
  | [] => []
  | c :: cs =>
    if pat.isPrefixOf (c :: cs) then (c :: cs).drop pat.length
    else c :: removeFirstSub pat cs

/-- JavaScript `text.replace(/\/\*|\*\/|\/\//g, '')`: one left-to-right scan
deleting each non-overlapping occurrence of `/*`, `*/` or `//` (alternatives
tried in that order at each position; the scan resumes after a match and
never rescans earlier output). -/
def stripDelims : List Char → List Char
  | '/' :: '*' :: rest => stripDelims rest
  | '*' :: '/' :: rest => stripDelims rest
  | '/' :: '/' :: rest => stripDelims rest
  | c :: rest => c :: stripDelims rest
  | [] => []

/-- Whitespace removed by JavaScript `String.prototype.trim` (the ASCII
part, which covers the comment texts modelled here). -/
def isJsSpace (c : Char) : Bool :=
  c = ' ' || c = '\t' || c = '\n' || c = '\r' || c = '\x0b' || c = '\x0c'

/-- JavaScript `trim`: drop whitespace from both ends. -/
def jsTrim (l : List Char) : List Char :=
  ((l.dropWhile isJsSpace).reverse.dropWhile isJsSpace).reverse

/-- The description derived from a marker comment (source lines 162-165). -/
def deriveDescription (comment : String) : String :=
  String.mk (jsTrim (stripDelims (removeFirstSub "@abra-action".toList comment.toList)))

/-- Source line 203: `description || Execute <name>` — an empty derived
description falls back to `"Execute <name>"`. -/
def actionDescription (comment functionName : String) : String :=
  if deriveDescription comment = "" then "Execute " ++ functionName
  else deriveDescription comment

/-! ### Helper notions about handle identity and primitive classification -/

/-- The stable identity of a handle, when `getTypeId` finds one without
drawing a random token: `type.id` if truthy, else `type.symbol.id` if
truthy. -/
def symStable (n : TypeNode) : Option TypeId :=
  match n.symbol with
  | some s =>
    match s.sid with
    | some j => if j != 0 then some (Sum.inl j) else none
    | none => none
  | none => none

/-- See `symStable`: full stable identity of a handle. -/
def stableId (n : TypeNode) : Option TypeId :=
  match n.id with
  | some i => if i != 0 then some (Sum.inl i) else symStable n
  | none => symStable n

/-- The primitive tag, if any, the classification cascade of source lines
231-236 assigns to a handle. -/
def primTag (n : TypeNode) : Option String :=
  if n.fStr then some "string"
  else if n.fNum then some "number"
  else if n.fBool then some "boolean"
  else if n.fNull then some "null"
  else if n.fUndef then some "undefined"
  else if n.fAny || n.fUnknown then some "any"
  else none

/-- Containment of processed-name sets: every name in the first is in the
second (the run-global `processedTypes` set only ever grows). -/
def processedLe (p q : List String) : Prop :=
  ∀ nm, elemStr nm p = true → elemStr nm q = true

/-- Two visited sets that agree on membership of every identity except
`x`. -/
def agreeOff (x : TypeId) (v w : List TypeId) : Prop :=
  ∀ y, y ≠ x → elemId y v = elemId y w

/-- Every handle reference a node hands the serializer for recursion:
property types, union members, array type arguments. -/
def nodeRefs (n : TypeNode) : List Nat :=
  ((n.props.getD []).filterMap PropSym.ty) ++ (n.union.getD []) ++ (n.typeArgs.getD [])

/-- All stable identities present in a heap. -/
def envIds (env : List TypeNode) : Finset TypeId :=
  (env.filterMap stableId).toFinset

/-- Every node of the heap carries a stable identity. -/
def allStable (env : List TypeNode) : Prop :=
  ∀ n ∈ env, (stableId n).isSome = true

/-- The serializer diverges on this handle: no amount of fuel completes it
(the JavaScript recursion never returns). -/
def divergesAt (oracle : Nat → String) (env : List TypeNode) (tdefs : List TDef)
    (t : Option Nat) (visited : List TypeId) (st : SerState) : Prop :=
  ∀ fuel, serializeType oracle env tdefs fuel t visited st = none

/-! ### Fixtures: concrete heaps used by witnesses and counterexamples -/

/-- Token oracle producing pairwise distinct nonempty tokens. -/
def oracleA : Nat → String := fun k => String.mk (List.replicate (k + 1) 'a')

/-- Token oracle whose draws collide. -/
def oracleT : Nat → String := fun _ => "t"

/-- Self-referential named type `type Node = { next: Node }`. -/
def nodeSelf : TypeNode :=
  { N0 with
      id := some 1
      symbol := some ⟨none, "Node"⟩
      props := some [⟨"next", false, some 0⟩] }

/-- Heap holding only `nodeSelf`. -/
def envSelf : List TypeNode := [nodeSelf]

/-- Collected definitions for `envSelf`. -/
def tdefsSelf : List TDef := [⟨"Node", 0, "node.ts"⟩]

/-- A string-literal handle (the type `"hello"`). -/
def litS : TypeNode :=
  { N0 with
      id := some 1
      isLiteral := true
      isStringLiteral := true
      litStr := "hello" }

/-- A numeric-literal handle (the type `42`). -/
def litN : TypeNode :=
  { N0 with
      id := some 2
      isLiteral := true
      isNumberLiteral := true
      litNum := 42 }

/-- A boolean-literal handle (the type `true`). -/
def litB : TypeNode :=
  { N0 with
      id := some 3
      isLiteral := true
      fBoolLit := true
      intrinsicName := "true" }

/-- Heap with the three literal handles. -/
def envLit : List TypeNode := [litS, litN, litB]

/-- String-literal member `"a"`. -/
def memA : TypeNode :=
  { N0 with id := some 11, isLiteral := true, isStringLiteral := true, litStr := "a" }

/-- String-literal member `"b"`. -/
def memB : TypeNode :=
  { N0 with id := some 12, isLiteral := true, isStringLiteral := true, litStr := "b" }

/-- String-literal member `"c"`. -/
def memC : TypeNode :=
  { N0 with id := some 13, isLiteral := true, isStringLiteral := true, litStr := "c" }

/-- The union `"a" | "b" | "c"`. -/
def unionEnum : TypeNode :=
  { N0 with id := some 9, union := some [1, 2, 3] }

/-- Heap for the string-enum union. -/
def envEnum : List TypeNode := [unionEnum, memA, memB, memC]

/-- Primitive `string` handle used as a property type in fixtures. -/
def primS : TypeNode := { N0 with id := some 21, fStr := true }

/-- Primitive `number` handle used as a property type in fixtures. -/
def primN : TypeNode := { N0 with id := some 22, fNum := true }

/-- A named record whose middle property's type resolution throws. -/
def propsFail : TypeNode :=
  { N0 with
      id := some 31
      symbol := some ⟨none, "P"⟩
      props := some [⟨"a", false, some 1⟩, ⟨"b", false, none⟩,
        ⟨"c", false, some 2⟩] }

/-- An array handle whose `getTypeArguments` call throws. -/
def arrFail : TypeNode := { N0 with id := some 32, isArrayType := true }

/-- Heap for the failure-isolation fixture. -/
def envC8 : List TypeNode := [propsFail, primS, primN, arrFail]

/-- Collected definitions for `envC8`. -/
def tdefsC8 : List TDef := [⟨"P", 0, "p.ts"⟩]

/-- Diamond enclosing type whose two properties share the propless type `B`:
`type A = { p: B, q: B }`. -/
def dA : TypeNode :=
  { N0 with
      id := some 41
      symbol := some ⟨none, "A"⟩
      props := some [⟨"p", false, some 1⟩, ⟨"q", false, some 1⟩] }

/-- The shared named type with no properties (`type B = {}`). -/
def dB0 : TypeNode :=
  { N0 with
      id := some 42
      symbol := some ⟨none, "B"⟩
      props := some []
      toStr := "B" }

/-- Heap for the propless diamond. -/
def envDiamond0 : List TypeNode := [dA, dB0]

/-- Collected definitions for `envDiamond0`. -/
def tdefsDiamond0 : List TDef := [⟨"A", 0, "a.ts"⟩, ⟨"B", 1, "b.ts"⟩]

/-- Diamond enclosing type `type WA = { p: WB, q: WB }`. -/
def wA : TypeNode :=
  { N0 with
      id := some 51
      symbol := some ⟨none, "WA"⟩
      props := some [⟨"p", false, some 1⟩, ⟨"q", false, some 1⟩] }

/-- The shared named type `type WB = { x: string }`. -/
def wB : TypeNode :=
  { N0 with
      id := some 52
      symbol := some ⟨none, "WB"⟩
      props := some [⟨"x", false, some 2⟩] }

/-- Heap for the expanding diamond. -/
def envDiamond : List TypeNode := [wA, wB, primS]

/-- Collected definitions for `envDiamond`. -/
def tdefsDiamond : List TDef := [⟨"WA", 0, "wa.ts"⟩, ⟨"WB", 1, "wb.ts"⟩]

/-- Named type `type A = { b: B }` whose expansion pulls in `B`. -/
def regA : TypeNode :=
  { N0 with
      id := some 61
      symbol := some ⟨none, "A"⟩
      props := some [⟨"b", false, some 1⟩] }

/-- Named type `type B = { x: string }`, collected after `A`. -/
def regB : TypeNode :=
  { N0 with
      id := some 62
      symbol := some ⟨none, "B"⟩
      props := some [⟨"x", false, some 2⟩] }

/-- Heap for the registry fixture. -/
def envReg : List TypeNode := [regA, regB, primS]

/-- Collected definitions for `envReg`, `A` before `B`. -/
def tdefsReg : List TDef := [⟨"A", 0, "a.ts"⟩, ⟨"B", 1, "b.ts"⟩]

/-- An anonymous self-referential shape: no `type.id`, no symbol, one
property whose type is the shape itself.  Its cycle-guard identity is a
fresh random token on every visit. -/
def anonLoop : TypeNode :=
  { N0 with
      props := some [⟨"self", false, some 0⟩]
      toStr := "anon" }

/-- Heap holding only `anonLoop`. -/
def envAnon : List TypeNode := [anonLoop]

/-- Named type `X` whose expansion passes through two identity-less
anonymous shapes. -/
def oX : TypeNode :=
  { N0 with
      id := some 71
      symbol := some ⟨none, "X"⟩
      props := some [⟨"a", false, some 1⟩] }

/-- Anonymous identity-less shape `{ b: Z }`. -/
def oY : TypeNode := { N0 with props := some [⟨"b", false, some 2⟩] }

/-- Anonymous identity-less shape rendered as `"Z"`. -/
def oZ : TypeNode := { N0 with toStr := "Z" }

/-- Heap for the token-collision fixture. -/
def envTok : List TypeNode := [oX, oY, oZ]

/-- Collected definitions for `envTok`. -/
def tdefsTok : List TDef := [⟨"X", 0, "x.ts"⟩]

/-- The `undefined` type handle. -/
def undefN : TypeNode := { N0 with id := some 81, fUndef := true }

/-- A plain `string` handle playing the role of `T`. -/
def tStr : TypeNode := { N0 with id := some 82, fStr := true }

/-- The union `string | undefined`. -/
def uOpt : TypeNode := { N0 with id := some 83, union := some [1, 2] }

/-- A union consisting only of `undefined`. -/
def uNull : TypeNode := { N0 with id := some 84, union := some [2] }

/-- Heap for the optional-unwrapping fixture. -/
def envOpt : List TypeNode := [uOpt, tStr, undefN, uNull]





end Abra

namespace Abra

/-- A handle with a stable identity never consumes the token oracle. -/
theorem getTypeId_of_stable {n : TypeNode} {tid : TypeId}
    (h : stableId n = some tid) (oracle : Nat → String) (st : SerState) :
    getTypeId oracle n st = (tid, st) := by
  unfold stableId symStable at h
  unfold getTypeId
  cases hid : n.id with
  | none =>
    simp only [hid] at h ⊢
    cases hs : n.symbol with
    | none => simp [hs] at h
    | some s =>
      simp only [hs] at h ⊢
      cases hj : s.sid with
      | none => simp [hj] at h
      | some j =>
        simp only [hj] at h ⊢
        by_cases hj0 : (j != 0) = true
        · simp [hj0] at h ⊢; exact h
        · simp [hj0] at h
  | some i =>
    simp only [hid] at h ⊢
    by_cases hi0 : (i != 0) = true
    · simp [hi0] at h ⊢; exact h
    · simp only [hi0] at h ⊢
      simp only [Bool.false_eq_true, if_false]
      cases hs : n.symbol with
      | none => simp [hs] at h
      | some s =>
        simp only [hs] at h ⊢
        cases hj : s.sid with
        | none => simp [hj] at h
        | some j =>
          simp only [hj] at h ⊢
          by_cases hj0 : (j != 0) = true
          · simp [hj0] at h ⊢; exact h
          · simp [hj0] at h

/-- A handle without a stable identity draws the next oracle token. -/
theorem getTypeId_of_unstable {n : TypeNode}
    (h : stableId n = none) (oracle : Nat → String) (st : SerState) :
    getTypeId oracle n st = (Sum.inr (oracle st.k), { st with k := st.k + 1 }) := by
  unfold stableId symStable at h
  unfold getTypeId freshToken
  cases hid : n.id with
  | none =>
    simp only [hid] at h ⊢
    cases hs : n.symbol with
    | none => simp [hs]
    | some s =>
      simp only [hs] at h ⊢
      cases hj : s.sid with
      | none => simp [hj]
      | some j =>
        simp only [hj] at h ⊢
        by_cases hj0 : (j != 0) = true
        · simp [hj0] at h
        · simp [hj0]
  | some i =>
    simp only [hid] at h ⊢
    by_cases hi0 : (i != 0) = true
    · simp [hi0] at h
    · simp only [hi0, Bool.false_eq_true, if_false] at h ⊢
      cases hs : n.symbol with
      | none => simp [hs]
      | some s =>
        simp only [hs] at h ⊢
        cases hj : s.sid with
        | none => simp [hj]
        | some j =>
          simp only [hj] at h ⊢
          by_cases hj0 : (j != 0) = true
          · simp [hj0] at h
          · simp [hj0]

/-- A primitive-classified handle short-circuits the cascade to its tag. -/
theorem serializeKinds_prim {n : TypeNode} {s : String}
    (h : primTag n = some s)
    (rec : Option Nat → List TypeId → SerState → Option (SchemaValue × SerState))
    (env : List TypeNode) (tdefs : List TDef) (visited : List TypeId)
    (st : SerState) :
    serializeKinds rec env tdefs n visited st = some (.str s, st) := by
  unfold primTag at h
  unfold serializeKinds
  by_cases h1 : n.fStr = true
  · simp_all
  · simp only [h1] at h ⊢
    by_cases h2 : n.fNum = true
    · simp_all
    · simp only [h2] at h ⊢
      by_cases h3 : n.fBool = true
      · simp_all
      · simp only [h3] at h ⊢
        by_cases h4 : n.fNull = true
        · simp_all
        · simp only [h4] at h ⊢
          by_cases h5 : n.fUndef = true
          · simp_all
          · simp only [h5] at h ⊢
            by_cases h6 : (n.fAny || n.fUnknown) = true
            · simp_all
            · simp_all

/-- A non-zero `type.id` is the stable identity. -/
theorem stableId_of_id {n : TypeNode} {i : Nat} (h : n.id = some i)
    (hi : i ≠ 0) : stableId n = some (Sum.inl i) := by
  unfold stableId
  simp [h, hi]

/-- A handle carries no primitive flag exactly when all seven flags are
false. -/
theorem primTag_none_iff {n : TypeNode} : primTag n = none ↔
    n.fStr = false ∧ n.fNum = false ∧ n.fBool = false ∧ n.fNull = false ∧
    n.fUndef = false ∧ n.fAny = false ∧ n.fUnknown = false := by
  unfold primTag
  cases hf1 : n.fStr <;> cases hf2 : n.fNum <;> cases hf3 : n.fBool <;>
    cases hf4 : n.fNull <;> cases hf5 : n.fUndef <;> cases hf6 : n.fAny <;>
    cases hf7 : n.fUnknown <;> simp

/-- A handle that is neither primitive-flagged nor literal-classified falls
through the cascade to the named-type branch. -/
theorem serializeKinds_skip {n : TypeNode} (h1 : primTag n = none)
    (h2 : n.isLiteral = false)
    (rec : Option Nat → List TypeId → SerState → Option (SchemaValue × SerState))
    (env : List TypeNode) (tdefs : List TDef) (visited : List TypeId)
    (st : SerState) :
    serializeKinds rec env tdefs n visited st =
      namedOrRest rec env tdefs n visited st := by
  obtain ⟨e1, e2, e3, e4, e5, e6, e7⟩ := primTag_none_iff.mp h1
  unfold serializeKinds
  simp [e1, e2, e3, e4, e5, e6, e7, h2]

/-- With no symbol on the handle the named branch is skipped. -/
theorem namedOrRest_noSymbol {n : TypeNode} (hsym : n.symbol = none)
    (rec : Option Nat → List TypeId → SerState → Option (SchemaValue × SerState))
    (env : List TypeNode) (tdefs : List TDef) (visited : List TypeId)
    (st : SerState) :
    namedOrRest rec env tdefs n visited st = afterNamed rec env n visited st := by
  unfold namedOrRest
  simp [hsym]

/-- A symbol name already in `processedTypes` makes the named branch fall
through without touching the state. -/
theorem namedOrRest_processed {n : TypeNode} {s : Sym}
    (hsym : n.symbol = some s) (st : SerState)
    (hproc : elemStr s.name st.processed = true)
    (rec : Option Nat → List TypeId → SerState → Option (SchemaValue × SerState))
    (env : List TypeNode) (tdefs : List TDef) (visited : List TypeId) :
    namedOrRest rec env tdefs n visited st = afterNamed rec env n visited st := by
  unfold namedOrRest
  simp only [hsym]
  by_cases h1 : (s.name != "" && !(isBuiltInType s.name)) = true
  · simp only [h1, if_true]
    cases hfind : tdefs.find? (fun d => d.name == s.name && !(isBuiltInType s.name)) with
    | none => rfl
    | some ti => simp [hproc]
  · simp [h1]

/-- Entering the named branch: an unprocessed matching definition marks the
name processed and expands the registry entry's properties. -/
theorem namedOrRest_enter {env : List TypeNode} {tdefs : List TDef}
    {n : TypeNode} {s : Sym} {ti : TDef} {ps : List PropSym} {st : SerState}
    (hsym : n.symbol = some s) (hname : s.name ≠ "")
    (hbi : isBuiltInType s.name = false)
    (hfind : tdefs.find? (fun d => d.name == s.name && !(isBuiltInType s.name)) =
      some ti)
    (hproc : elemStr s.name st.processed = false)
    (hps : (env[ti.ref]?).bind TypeNode.props = some ps)
    (rec : Option Nat → List TypeId → SerState → Option (SchemaValue × SerState))
    (visited : List TypeId) :
    namedOrRest rec env tdefs n visited st =
      match propsLoop rec visited ps
          { st with processed := s.name :: st.processed } [] with
      | none => none
      | some (fields, st3) => some (.obj fields, st3) := by
  have hfind' : tdefs.find? (fun d => d.name == s.name) = some ti := by
    simpa [hbi] using hfind
  unfold namedOrRest
  simp [hsym, hname, hbi, hfind', hproc, hps]

/-- One step of the serializer on a handle with a fresh stable identity:
push the identity on this path's visited set and classify. -/
theorem serializeType_succ_stable {env : List TypeNode} {r : Nat}
    {n : TypeNode} {tid : TypeId} {visited : List TypeId}
    (oracle : Nat → String) (tdefs : List TDef) (fuel : Nat)
    (hn : env[r]? = some n) (hid : stableId n = some tid)
    (hvis : elemId tid visited = false) (st : SerState) :
    serializeType oracle env tdefs (fuel + 1) (some r) visited st =
      serializeKinds
        (fun t' v' st' => serializeType oracle env tdefs fuel t' v' st')
        env tdefs n (tid :: visited) st := by
  simp only [serializeType, serializeStep, hn, getTypeId_of_stable hid, hvis]
  simp

/-- The cycle guard: a handle whose stable identity is already on the
current path immediately serializes to `"any"`. -/
theorem serializeType_revisit {env : List TypeNode} {r : Nat}
    {n : TypeNode} {tid : TypeId} {visited : List TypeId}
    (oracle : Nat → String) (tdefs : List TDef) (fuel : Nat)
    (hn : env[r]? = some n) (hid : stableId n = some tid)
    (hvis : elemId tid visited = true) (st : SerState) :
    serializeType oracle env tdefs (fuel + 1) (some r) visited st =
      some (.str "any", st) := by
  simp only [serializeType, serializeStep, hn, getTypeId_of_stable hid, hvis]
  simp

/-- A primitive-classified handle with a fresh stable identity serializes to
its tag, leaving the state untouched. -/
theorem serialize_prim {env : List TypeNode} {r : Nat} {n : TypeNode}
    {s : String} {tid : TypeId}
    (oracle : Nat → String) (tdefs : List TDef) (fuel : Nat)
    (hn : env[r]? = some n) (h : primTag n = some s)
    (hid : stableId n = some tid) (visited : List TypeId)
    (hvis : elemId tid visited = false) (st : SerState) :
    serializeType oracle env tdefs (fuel + 1) (some r) visited st =
      some (.str s, st) := by
  unfold serializeType serializeStep
  simp only [hn, getTypeId_of_stable hid, hvis, Bool.false_eq_true, if_false]
  exact serializeKinds_prim h _ env tdefs _ st

/-! ### Claims -/

/-- C1: for a self-referential named type (`type Node = { next: Node }`),
serialization terminates: the recursive descent into the self-referencing
property finds the type's stable identity already in the visited-path set
and maps that property to `"any"` instead of recursing forever. -/
theorem serialize_selfref_named_any
    (oracle : Nat → String) (env : List TypeNode) (tdefs : List TDef)
    (fuel i r : Nat) (nm pname file : String) (n : TypeNode)
    (hn : env[r]? = some n)
    (hid : n.id = some i) (hi : i ≠ 0)
    (hsym : ∃ sid, n.symbol = some ⟨sid, nm⟩)
    (hprops : n.props = some [⟨pname, false, some r⟩])
    (hprim : primTag n = none) (hlit : n.isLiteral = false)
    (hnm : nm ≠ "") (hbi : isBuiltInType nm = false)
    (hfind : tdefs.find? (fun d => d.name == nm && !(isBuiltInType nm)) =
      some ⟨nm, r, file⟩)
    (hp : jsStartsWith pname "__" = false)
    (st : SerState) (hproc : elemStr nm st.processed = false) :
    serializeType oracle env tdefs (fuel + 2) (some r) [] st =
      some (.obj [(pname, .str "any")],
        { st with processed := nm :: st.processed }) := by
  obtain ⟨sid, hsym⟩ := hsym
  have hstable : stableId n = some (Sum.inl i) := stableId_of_id hid hi
  have hps : (env[r]?).bind TypeNode.props =
      some [(⟨pname, false, some r⟩ : PropSym)] := by
    simp [hn, hprops]
  rw [show fuel + 2 = (fuel + 1) + 1 from rfl,
    serializeType_succ_stable oracle tdefs (fuel + 1) hn hstable
      (by simp [elemId]) st,
    serializeKinds_skip hprim hlit,
    namedOrRest_enter hsym (by simpa using hnm) hbi hfind hproc hps]
  have hloop : propsLoop
      (fun t' v' st' => serializeType oracle env tdefs (fuel + 1) t' v' st')
      [Sum.inl i] [⟨pname, false, some r⟩]
      { st with processed := nm :: st.processed } [] =
        some ([(pname, SchemaValue.str "any")],
          { st with processed := nm :: st.processed }) := by
    unfold propsLoop
    simp only [hp, Bool.false_or, Bool.false_eq_true, if_false]
    rw [serializeType_revisit oracle tdefs fuel hn hstable (by simp [elemId])]
    unfold propsLoop
    rfl
  rw [hloop]

/-- C1 witness: the concrete `type Node = { next: Node }` heap serializes to
`{ next: "any" }` in two steps of fuel. -/
theorem serialize_selfref_named_any_witness :
    serializeType oracleA envSelf tdefsSelf 2 (some 0) [] ⟨[], 0⟩ =
      some (.obj [("next", .str "any")], ⟨["Node"], 0⟩) :=
  serialize_selfref_named_any oracleA envSelf tdefsSelf 0 1 0 "Node" "next"
    "node.ts" nodeSelf rfl rfl (by decide) ⟨none, rfl⟩ rfl rfl rfl (by decide)
    (by decide) rfl rfl ⟨[], 0⟩ rfl

/-- C4: literal handles serialize to their raw literal values, never to the
type-tags: a string-literal handle gives its literal string, a
numeric-literal handle its literal number, and a boolean-literal handle the
literal's truth value as a JSON boolean (`intrinsicName === 'true'`), never
the tag `"boolean"` and never a free-text string. -/
theorem serialize_literal_raw_value
    (oracle : Nat → String) (env : List TypeNode) (tdefs : List TDef)
    (fuel r : Nat) (n : TypeNode) (tid : TypeId)
    (visited : List TypeId) (st : SerState)
    (hn : env[r]? = some n)
    (hprim : primTag n = none) (hlit : n.isLiteral = true)
    (hid : stableId n = some tid) (hvis : elemId tid visited = false) :
    (n.isStringLiteral = true →
      serializeType oracle env tdefs (fuel + 1) (some r) visited st =
        some (.str n.litStr, st)) ∧
    (n.isStringLiteral = false → n.isNumberLiteral = true →
      serializeType oracle env tdefs (fuel + 1) (some r) visited st =
        some (.num n.litNum, st)) ∧
    (n.isStringLiteral = false → n.isNumberLiteral = false →
      n.fBoolLit = true →
      serializeType oracle env tdefs (fuel + 1) (some r) visited st =
        some (.bool (n.intrinsicName == "true"), st)) := by
  obtain ⟨e1, e2, e3, e4, e5, e6, e7⟩ := primTag_none_iff.mp hprim
  refine ⟨fun hs => ?_, fun hs hnum => ?_, fun hs hnum hb => ?_⟩ <;>
    rw [serializeType_succ_stable oracle tdefs fuel hn hid hvis st] <;>
    unfold serializeKinds <;>
    simp [e1, e2, e3, e4, e5, e6, e7, hlit, hs]
  · simp [hnum]
  · simp [hnum, hb]

/-- C4 witness: the literals `"hello"`, `42` and `true` serialize to the raw
values `"hello"`, `42` and the boolean `true`. -/
theorem serialize_literal_raw_value_witness :
    serializeType oracleA envLit [] 1 (some 0) [] ⟨[], 0⟩ =
      some (.str "hello", ⟨[], 0⟩) ∧
    serializeType oracleA envLit [] 1 (some 1) [] ⟨[], 0⟩ =
      some (.num 42, ⟨[], 0⟩) ∧
    serializeType oracleA envLit [] 1 (some 2) [] ⟨[], 0⟩ =
      some (.bool true, ⟨[], 0⟩) :=
  ⟨(serialize_literal_raw_value oracleA envLit [] 0 0 litS (Sum.inl 1) []
      ⟨[], 0⟩ rfl rfl rfl rfl rfl).1 rfl,
   (serialize_literal_raw_value oracleA envLit [] 0 1 litN (Sum.inl 2) []
      ⟨[], 0⟩ rfl rfl rfl rfl rfl).2.1 rfl rfl,
   (serialize_literal_raw_value oracleA envLit [] 0 2 litB (Sum.inl 3) []
      ⟨[], 0⟩ rfl rfl rfl rfl rfl).2.2 rfl rfl rfl⟩

/-- C6: a union whose members are all string literals serializes to the
sequence of their literal values in the members' declaration order (a
string-enum), not an object, tag or fallback string. -/
theorem serialize_union_string_enum
    (oracle : Nat → String) (env : List TypeNode) (tdefs : List TDef)
    (fuel r : Nat) (n : TypeNode) (mvs : List (Nat × String))
    (tid : TypeId) (visited : List TypeId) (st : SerState)
    (hn : env[r]? = some n)
    (hu : n.union = some (mvs.map Prod.fst))
    (hprim : primTag n = none) (hlit : n.isLiteral = false)
    (hsym : n.symbol = none)
    (hid : stableId n = some tid) (hvis : elemId tid visited = false)
    (hms : ∀ mv ∈ mvs, ∃ mn, env[mv.1]? = some mn ∧
      mn.isStringLiteral = true ∧ mn.litStr = mv.2) :
    serializeType oracle env tdefs (fuel + 1) (some r) visited st =
      some (.strList (mvs.map Prod.snd), st) := by
  rw [serializeType_succ_stable oracle tdefs fuel hn hid hvis st,
    serializeKinds_skip hprim hlit, namedOrRest_noSymbol hsym]
  unfold afterNamed
  simp only [hu]
  unfold unionBranch
  have hall : (mvs.map Prod.fst).all
      (fun m => ((env[m]?).map TypeNode.isStringLiteral).getD false) = true := by
    rw [List.all_eq_true]
    intro m hm
    obtain ⟨mv, hmv, hfst⟩ := List.mem_map.mp hm
    obtain ⟨mn, hmn, hsl, _⟩ := hms mv hmv
    subst hfst
    simp [hmn, hsl]
  rw [if_pos hall]
  have hmap : (mvs.map Prod.fst).map
      (fun m => ((env[m]?).map TypeNode.litStr).getD "") = mvs.map Prod.snd := by
    rw [List.map_map]
    refine List.map_congr_left ?_
    intro mv hmv
    obtain ⟨mn, hmn, _, hv⟩ := hms mv hmv
    simp [Function.comp, hmn, hv]
  rw [hmap]

/-- C6 witness: the union `"a" | "b" | "c"` serializes to the string-enum
`["a", "b", "c"]` in declaration order. -/
theorem serialize_union_string_enum_witness :
    serializeType oracleA envEnum [] 1 (some 0) [] ⟨[], 0⟩ =
      some (.strList ["a", "b", "c"], ⟨[], 0⟩) :=
  serialize_union_string_enum oracleA envEnum [] 0 0 unionEnum
    [(1, "a"), (2, "b"), (3, "c")] (Sum.inl 9) [] ⟨[], 0⟩ rfl rfl rfl rfl rfl
    rfl rfl (by
      intro mv hmv
      simp only [List.mem_cons, List.not_mem_nil, or_false] at hmv
      rcases hmv with rfl | rfl | rfl
      · exact ⟨memA, rfl, rfl, rfl⟩
      · exact ⟨memB, rfl, rfl, rfl⟩
      · exact ⟨memC, rfl, rfl, rfl⟩)

/-- JavaScript object insertion of a fresh key appends it. -/
theorem setKey_append (acc : List (String × SchemaValue)) (k : String)
    (v : SchemaValue) (h : ∀ kv ∈ acc, kv.1 ≠ k) :
    setKey acc k v = acc ++ [(k, v)] := by
  induction acc with
  | nil => rfl
  | cons kv rest ih =>
    unfold setKey
    have hk : (kv.1 == k) = false := by
      simp [h kv (by simp)]
    simp only [hk, Bool.false_eq_true, if_false]
    rw [ih (fun kv' hkv' => h kv' (by simp [hkv']))]
    rfl

/-- The property loop over primitively-typed data properties with fresh
stable identities produces one tag per property, in order, leaving the
state untouched. -/
theorem propsLoop_prim (oracle : Nat → String) (env : List TypeNode)
    (tdefs : List TDef) (fuel : Nat) (visited : List TypeId)
    (bps : List (String × Nat × String))
    (hbp : ∀ x ∈ bps, jsStartsWith x.1 "__" = false ∧
      ∃ ns tids, env[x.2.1]? = some ns ∧ primTag ns = some x.2.2 ∧
        stableId ns = some tids ∧ elemId tids visited = false)
    (hnd : (bps.map Prod.fst).Nodup)
    (st : SerState) (acc : List (String × SchemaValue))
    (hdisj : ∀ x ∈ bps, ∀ kv ∈ acc, kv.1 ≠ x.1) :
    propsLoop (fun t' v' st' => serializeType oracle env tdefs (fuel + 1) t' v' st')
      visited (bps.map fun x => ⟨x.1, false, some x.2.1⟩) st acc =
      some (acc ++ bps.map (fun x => (x.1, SchemaValue.str x.2.2)), st) := by
  induction bps generalizing acc with
  | nil => simp [propsLoop]
  | cons x rest ih =>
    obtain ⟨hx1, ns, tids, hns, hprim, hstab, hvis⟩ := hbp x (by simp)
    simp only [List.map_cons]
    unfold propsLoop
    simp only [hx1, Bool.false_or, Bool.false_eq_true, if_false]
    rw [serialize_prim oracle tdefs fuel hns hprim hstab _ hvis _]
    simp only []
    rw [setKey_append acc x.1 (SchemaValue.str x.2.2)
      (hdisj x (by simp))]
    rw [ih (fun y hy => hbp y (by simp [hy]))
      (by simpa using hnd.of_cons)
      (acc ++ [(x.1, SchemaValue.str x.2.2)])
      ?_]
    · simp
    · intro y hy kv hkv
      rcases List.mem_append.mp hkv with hkv | hkv
      · exact hdisj y (by simp [hy]) kv hkv
      · simp only [List.mem_singleton] at hkv
        subst hkv
        have : x.1 ≠ y.1 := by
          have := hnd
          simp only [List.map_cons, List.nodup_cons] at this
          intro hcon
          exact this.1 (hcon ▸ List.mem_map_of_mem Prod.fst hy)
        simpa using this

/-- C5 counterexample: in the diamond `type A = { p: B, q: B }` with the
propless shared type `type B = {}`, the first sibling expands `B` to `{}`
through the named-type branch while the second — `B` now being in
`processedTypes` — falls through to the type-string fallback `"B"`: the two
siblings do NOT both receive the shared type's expanded structure, refuting
the claim as stated. -/
theorem serialize_diamond_counterexample :
    serializeType oracleA envDiamond0 tdefsDiamond0 3 (some 0) [] ⟨[], 0⟩ =
      some (.obj [("p", .obj []), ("q", .str "B")], ⟨["B", "A"], 0⟩) ∧
    SchemaValue.str "B" ≠ SchemaValue.obj [] :=
  ⟨rfl, fun h => SchemaValue.noConfusion h⟩

/-- C5 (amended): a diamond reference whose shared named type has at least
one property, all properties primitively typed with fresh stable
identities, fully expands the shared structure under each sibling property
independently — the visited-path set never causes a cycle short-circuit
between siblings because each descent receives its own copy (the second
sibling re-expands through the generic-object branch, the processed-names
set having been marked by the first). -/
theorem serialize_diamond_expands_siblings
    (oracle : Nat → String) (env : List TypeNode) (tdefs : List TDef)
    (fuel ia ib ra rb : Nat) (na nb : TypeNode)
    (nmA nmB p q fa fb : String) (st : SerState)
    (bps : List (String × Nat × String))
    (hna : env[ra]? = some na) (hnb : env[rb]? = some nb)
    (hidA : na.id = some ia) (hia : ia ≠ 0)
    (hidB : nb.id = some ib) (hib : ib ≠ 0) (hab : ia ≠ ib)
    (hsymA : ∃ sid, na.symbol = some ⟨sid, nmA⟩)
    (hsymB : ∃ sid, nb.symbol = some ⟨sid, nmB⟩)
    (hprA : na.props = some [⟨p, false, some rb⟩, ⟨q, false, some rb⟩])
    (hprB : nb.props = some (bps.map fun x => ⟨x.1, false, some x.2.1⟩))
    (hprimA : primTag na = none) (hlitA : na.isLiteral = false)
    (hprimB : primTag nb = none) (hlitB : nb.isLiteral = false)
    (huB : nb.union = none) (harrB : nb.isArrayType = false)
    (hnmA : nmA ≠ "") (hbiA : isBuiltInType nmA = false)
    (hnmB : nmB ≠ "") (hbiB : isBuiltInType nmB = false)
    (hABname : nmA ≠ nmB)
    (hfindA : tdefs.find? (fun d => d.name == nmA && !(isBuiltInType nmA)) =
      some ⟨nmA, ra, fa⟩)
    (hfindB : tdefs.find? (fun d => d.name == nmB && !(isBuiltInType nmB)) =
      some ⟨nmB, rb, fb⟩)
    (hprocA : elemStr nmA st.processed = false)
    (hprocB : elemStr nmB st.processed = false)
    (hp : jsStartsWith p "__" = false) (hq : jsStartsWith q "__" = false)
    (hpq : p ≠ q)
    (hbps : bps ≠ [])
    (hnd : (bps.map Prod.fst).Nodup)
    (hbp : ∀ x ∈ bps, jsStartsWith x.1 "__" = false ∧
      ∃ ns tids, env[x.2.1]? = some ns ∧ primTag ns = some x.2.2 ∧
        stableId ns = some tids ∧ tids ≠ Sum.inl ia ∧ tids ≠ Sum.inl ib) :
    serializeType oracle env tdefs (fuel + 3) (some ra) [] st =
      some (.obj [(p, .obj (bps.map fun x => (x.1, SchemaValue.str x.2.2))),
                  (q, .obj (bps.map fun x => (x.1, SchemaValue.str x.2.2)))],
        { st with processed := nmB :: nmA :: st.processed }) := by
  obtain ⟨sidA, hsymA⟩ := hsymA
  obtain ⟨sidB, hsymB⟩ := hsymB
  have hstA : stableId na = some (Sum.inl ia) := stableId_of_id hidA hia
  have hstB : stableId nb = some (Sum.inl ib) := stableId_of_id hidB hib
  have hloopB : ∀ stx : SerState,
      propsLoop (fun t' v' st' => serializeType oracle env tdefs (fuel + 1) t' v' st')
        [Sum.inl ib, Sum.inl ia] (bps.map fun x => ⟨x.1, false, some x.2.1⟩)
        stx [] =
      some (bps.map (fun x => (x.1, SchemaValue.str x.2.2)), stx) := by
    intro stx
    have hbp' : ∀ x ∈ bps, jsStartsWith x.1 "__" = false ∧
        ∃ ns tids, env[x.2.1]? = some ns ∧ primTag ns = some x.2.2 ∧
          stableId ns = some tids ∧
          elemId tids [Sum.inl ib, Sum.inl ia] = false := by
      intro x hx
      obtain ⟨h1, ns, tids, h2, h3, h4, h5, h6⟩ := hbp x hx
      exact ⟨h1, ns, tids, h2, h3, h4, by simp [elemId, h5, h6]⟩
    simpa using propsLoop_prim oracle env tdefs fuel [Sum.inl ib, Sum.inl ia]
      bps hbp' hnd stx [] (by simp)
  have hserB1 : serializeType oracle env tdefs (fuel + 2) (some rb)
      [Sum.inl ia] { st with processed := nmA :: st.processed } =
      some (.obj (bps.map fun x => (x.1, SchemaValue.str x.2.2)),
        { st with processed := nmB :: nmA :: st.processed }) := by
    have hproc1 : elemStr nmB (nmA :: st.processed) = false := by
      simp [elemStr, (Ne.symm hABname), hprocB]
    have hps : (env[rb]?).bind TypeNode.props =
        some (bps.map fun x => (⟨x.1, false, some x.2.1⟩ : PropSym)) := by
      simp [hnb, hprB]
    rw [show fuel + 2 = (fuel + 1) + 1 from rfl,
      serializeType_succ_stable oracle tdefs (fuel + 1) hnb hstB
        (by simp [elemId, Ne.symm hab]) _,
      serializeKinds_skip hprimB hlitB,
      namedOrRest_enter hsymB (by simpa using hnmB) hbiB hfindB hproc1 hps]
    simp only [hloopB]
  have hserB2 : serializeType oracle env tdefs (fuel + 2) (some rb)
      [Sum.inl ia] { st with processed := nmB :: nmA :: st.processed } =
      some (.obj (bps.map fun x => (x.1, SchemaValue.str x.2.2)),
        { st with processed := nmB :: nmA :: st.processed }) := by
    have hproc2 : elemStr nmB (nmB :: nmA :: st.processed) = true := by
      simp [elemStr]
    rw [show fuel + 2 = (fuel + 1) + 1 from rfl,
      serializeType_succ_stable oracle tdefs (fuel + 1) hnb hstB
        (by simp [elemId, Ne.symm hab]) _,
      serializeKinds_skip hprimB hlitB,
      namedOrRest_processed hsymB _ hproc2]
    unfold afterNamed
    simp only [huB, harrB, Bool.false_eq_true, if_false]
    unfold objectOrFallback
    simp only [hprB]
    rw [if_pos (by simpa using hbps)]
    simp only [hloopB]
  have hpsA : (env[ra]?).bind TypeNode.props =
      some [(⟨p, false, some rb⟩ : PropSym), ⟨q, false, some rb⟩] := by
    simp [hna, hprA]
  rw [show fuel + 3 = (fuel + 2) + 1 from rfl,
    serializeType_succ_stable oracle tdefs (fuel + 2) hna hstA
      (by simp [elemId]) st,
    serializeKinds_skip hprimA hlitA,
    namedOrRest_enter hsymA (by simpa using hnmA) hbiA hfindA hprocA hpsA]
  unfold propsLoop
  simp only [hp, Bool.false_or, Bool.false_eq_true, if_false]
  simp only [hserB1]
  unfold propsLoop
  simp only [hq, Bool.false_or, Bool.false_eq_true, if_false]
  simp only [hserB2]
  unfold propsLoop
  simp [setKey, hpq]

/-- C5 witness: the diamond `type WA = { p: WB, q: WB }` with
`type WB = { x: string }` expands `WB`'s structure fully under both
siblings. -/
theorem serialize_diamond_expands_siblings_witness :
    serializeType oracleA envDiamond tdefsDiamond 3 (some 0) [] ⟨[], 0⟩ =
      some (.obj [("p", .obj [("x", .str "string")]),
                  ("q", .obj [("x", .str "string")])], ⟨["WB", "WA"], 0⟩) :=
  serialize_diamond_expands_siblings oracleA envDiamond tdefsDiamond 0 51 52
    0 1 wA wB "WA" "WB" "p" "q" "wa.ts" "wb.ts" ⟨[], 0⟩ [("x", 2, "string")]
    rfl rfl rfl (by decide) rfl (by decide) (by decide) ⟨none, rfl⟩
    ⟨none, rfl⟩ rfl rfl rfl rfl rfl rfl rfl rfl (by decide) (by decide)
    (by decide) (by decide) (by decide) rfl rfl rfl rfl rfl rfl (by decide)
    (by decide) (by decide)
    (by
      intro x hx
      simp only [List.mem_singleton] at hx
      subst hx
      exact ⟨rfl, primS, Sum.inl 21, rfl, rfl, rfl, by decide, by decide⟩)

/-- C8: a property whose type resolution throws is omitted from the object
schema while both resolving siblings are still present, and an array whose
element extraction throws degrades to `items: "any"`; neither failure
escapes its property or array boundary or aborts serialization. -/
theorem serialize_prop_failure_isolated
    (oracle : Nat → String) (env : List TypeNode) (tdefs : List TDef)
    (fuel i r ra rc : Nat) (nm a b c file ta tc : String)
    (n na nc : TypeNode) (tida tidc : TypeId) (st : SerState)
    (hn : env[r]? = some n)
    (hid : n.id = some i) (hi : i ≠ 0)
    (hsym : ∃ sid, n.symbol = some ⟨sid, nm⟩)
    (hprops : n.props = some
      [⟨a, false, some ra⟩, ⟨b, false, none⟩, ⟨c, false, some rc⟩])
    (hprim : primTag n = none) (hlit : n.isLiteral = false)
    (hnm : nm ≠ "") (hbi : isBuiltInType nm = false)
    (hfind : tdefs.find? (fun d => d.name == nm && !(isBuiltInType nm)) =
      some ⟨nm, r, file⟩)
    (hproc : elemStr nm st.processed = false)
    (hA : jsStartsWith a "__" = false) (hB : jsStartsWith c "__" = false)
    (hac : a ≠ c)
    (ha : env[ra]? = some na) (hpa : primTag na = some ta)
    (hsa : stableId na = some tida) (hfa : tida ≠ Sum.inl i)
    (hc : env[rc]? = some nc) (hpc : primTag nc = some tc)
    (hsc : stableId nc = some tidc) (hfc : tidc ≠ Sum.inl i) :
    serializeType oracle env tdefs (fuel + 2) (some r) [] st =
      some (.obj [(a, .str ta), (c, .str tc)],
        { st with processed := nm :: st.processed }) ∧
    (∀ (rA : Nat) (nA : TypeNode) (visited : List TypeId) (st' : SerState)
        (tidA : TypeId),
      env[rA]? = some nA → primTag nA = none → nA.isLiteral = false →
      nA.symbol = none → nA.union = none → nA.isArrayType = true →
      nA.typeArgs = none → stableId nA = some tidA →
      elemId tidA visited = false →
      serializeType oracle env tdefs (fuel + 1) (some rA) visited st' =
        some (.arr (.str "any"), st')) := by
  constructor
  · obtain ⟨sid, hsym⟩ := hsym
    have hstable : stableId n = some (Sum.inl i) := stableId_of_id hid hi
    have hps : (env[r]?).bind TypeNode.props = some
        [(⟨a, false, some ra⟩ : PropSym), ⟨b, false, none⟩,
          ⟨c, false, some rc⟩] := by
      simp [hn, hprops]
    rw [show fuel + 2 = (fuel + 1) + 1 from rfl,
      serializeType_succ_stable oracle tdefs (fuel + 1) hn hstable
        (by simp [elemId]) st,
      serializeKinds_skip hprim hlit,
      namedOrRest_enter hsym (by simpa using hnm) hbi hfind hproc hps]
    have hloop : propsLoop
        (fun t' v' st' => serializeType oracle env tdefs (fuel + 1) t' v' st')
        [Sum.inl i]
        [⟨a, false, some ra⟩, ⟨b, false, none⟩, ⟨c, false, some rc⟩]
        { st with processed := nm :: st.processed } [] =
          some ([(a, SchemaValue.str ta), (c, SchemaValue.str tc)],
            { st with processed := nm :: st.processed }) := by
      unfold propsLoop
      simp only [hA, Bool.false_or, Bool.false_eq_true, if_false]
      rw [serialize_prim oracle tdefs fuel ha hpa hsa _
        (by simp [elemId, hfa]) _]
      unfold propsLoop
      simp only [Bool.false_or]
      unfold propsLoop
      simp only [hB, Bool.false_or, Bool.false_eq_true, if_false]
      rw [serialize_prim oracle tdefs fuel hc hpc hsc _
        (by simp [elemId, hfc]) _]
      unfold propsLoop
      simp [setKey, hac]
    rw [hloop]
  · intro rA nA visited st' tidA hnA hprimA hlitA hsymA huA harrA hargsA
      hidA hvisA
    rw [serializeType_succ_stable oracle tdefs fuel hnA hidA hvisA st',
      serializeKinds_skip hprimA hlitA, namedOrRest_noSymbol hsymA]
    unfold afterNamed
    simp only [huA, harrA, if_true]
    unfold arrayBranch
    simp [hargsA]

/-- C8 witness: the record `P { a: string, b: <throws>, c: number }`
serializes to `{ a: "string", c: "number" }` (property `b` dropped, siblings
kept), and the array with a throwing element extraction serializes to
`{ type: "array", items: "any" }`. -/
theorem serialize_prop_failure_isolated_witness :
    serializeType oracleA envC8 tdefsC8 2 (some 0) [] ⟨[], 0⟩ =
      some (.obj [("a", .str "string"), ("c", .str "number")], ⟨["P"], 0⟩) ∧
    serializeType oracleA envC8 tdefsC8 1 (some 3) [] ⟨[], 0⟩ =
      some (.arr (.str "any"), ⟨[], 0⟩) := by
  have h := serialize_prop_failure_isolated oracleA envC8 tdefsC8 0 31 0 1 2
    "P" "a" "b" "c" "p.ts" "string" "number" propsFail primS primN
    (Sum.inl 21) (Sum.inl 22) ⟨[], 0⟩ rfl rfl (by decide) ⟨none, rfl⟩ rfl rfl
    rfl (by decide) (by decide) rfl rfl rfl rfl (by decide) rfl rfl rfl
    (by decide) rfl rfl rfl (by decide)
  exact ⟨h.1, h.2 3 arrFail [] ⟨[], 0⟩ (Sum.inl 32) rfl rfl rfl rfl rfl rfl
    rfl rfl rfl⟩

/-- C10: deriving a description deletes every occurrence of `/*`, `*/` and
`//` anywhere in the comment text — so a URL in the body loses its `//`
(`https://example.com` becomes `https:example.com`) — while only the first
occurrence of the marker token `@abra-action` is removed (a second
occurrence survives). -/
theorem deriveDescription_strips_delims_first_marker :
    deriveDescription "/* @abra-action Visit https://example.com */" =
      "Visit https:example.com" ∧
    deriveDescription "// @abra-action keep @abra-action once" =
      "keep @abra-action once" :=
  ⟨rfl, rfl⟩


theorem processedLe_refl (p : List String) : processedLe p p := fun _ h => h

theorem processedLe_trans {p q r : List String} (h1 : processedLe p q)
    (h2 : processedLe q r) : processedLe p r := fun nm h => h2 nm (h1 nm h)

theorem processedLe_cons (nm : String) (p : List String) :
    processedLe p (nm :: p) := by
  intro x hx
  unfold elemStr
  split <;> simp [hx]

theorem getTypeId_processed (oracle : Nat → String) (n : TypeNode)
    (st : SerState) : (getTypeId oracle n st).2.processed = st.processed := by
  cases h : stableId n with
  | none => rw [getTypeId_of_unstable h]
  | some tid => rw [getTypeId_of_stable h]

theorem propsLoop_mono
    {rec : Option Nat → List TypeId → SerState → Option (SchemaValue × SerState)}
    (Hrec : ∀ t v s out, rec t v s = some out →
      processedLe s.processed out.2.processed) :
    ∀ (ps : List PropSym) (visited : List TypeId) (s : SerState)
      (acc : List (String × SchemaValue))
      (out : List (String × SchemaValue) × SerState),
      propsLoop rec visited ps s acc = some out →
      processedLe s.processed out.2.processed := by
  intro ps
  induction ps with
  | nil =>
    intro visited s acc out h
    unfold propsLoop at h
    cases h
    exact processedLe_refl _
  | cons p rest ih =>
    intro visited s acc out h
    unfold propsLoop at h
    by_cases hskip : (jsStartsWith p.name "__" || p.isMethod) = true
    · rw [if_pos hskip] at h
      exact ih visited s acc out h
    · rw [if_neg hskip] at h
      cases hty : p.ty with
      | none =>
        rw [hty] at h
        simp only [] at h
        exact ih visited s acc out h
      | some r =>
        rw [hty] at h
        simp only [] at h
        cases hr : rec (some r) visited s with
        | none => rw [hr] at h; cases h
        | some pr =>
          rw [hr] at h
          exact processedLe_trans (Hrec _ _ _ _ hr)
            (ih visited pr.2 (setKey acc p.name pr.1) out h)

theorem unionBranch_mono
    {rec : Option Nat → List TypeId → SerState → Option (SchemaValue × SerState)}
    (Hrec : ∀ t v s out, rec t v s = some out →
      processedLe s.processed out.2.processed)
    (env : List TypeNode) (ms : List Nat) (visited : List TypeId)
    (s : SerState) (out : SchemaValue × SerState)
    (h : unionBranch rec env ms visited s = some out) :
    processedLe s.processed out.2.processed := by
  unfold unionBranch at h
  split_ifs at h
  · cases h; exact processedLe_refl _
  · cases h; exact processedLe_refl _
  · cases hf : ms.find? (fun m =>
        !(((env[m]?).map (fun t => t.fUndef || t.fNull)).getD false)) with
    | none => rw [hf] at h; simp only [] at h; cases h; exact processedLe_refl _
    | some m => rw [hf] at h; simp only [] at h; exact Hrec _ _ _ _ h

theorem arrayBranch_mono
    {rec : Option Nat → List TypeId → SerState → Option (SchemaValue × SerState)}
    (Hrec : ∀ t v s out, rec t v s = some out →
      processedLe s.processed out.2.processed)
    (n : TypeNode) (visited : List TypeId) (s : SerState)
    (out : SchemaValue × SerState)
    (h : arrayBranch rec n visited s = some out) :
    processedLe s.processed out.2.processed := by
  unfold arrayBranch at h
  cases hta : n.typeArgs with
  | none => rw [hta] at h; cases h; exact processedLe_refl _
  | some args =>
    rw [hta] at h
    simp only [] at h
    cases hr : rec args.head? visited s with
    | none => rw [hr] at h; cases h
    | some pr =>
      rw [hr] at h
      cases h
      exact Hrec args.head? visited s pr hr

theorem objectOrFallback_mono
    {rec : Option Nat → List TypeId → SerState → Option (SchemaValue × SerState)}
    (Hrec : ∀ t v s out, rec t v s = some out →
      processedLe s.processed out.2.processed)
    (n : TypeNode) (visited : List TypeId) (s : SerState)
    (out : SchemaValue × SerState)
    (h : objectOrFallback rec n visited s = some out) :
    processedLe s.processed out.2.processed := by
  unfold objectOrFallback at h
  cases hp : n.props with
  | none => rw [hp] at h; cases h; exact processedLe_refl _
  | some ps =>
    rw [hp] at h
    simp only [] at h
    split_ifs at h
    · cases hl : propsLoop rec visited ps s [] with
      | none => rw [hl] at h; cases h
      | some pr =>
        rw [hl] at h
        cases h
        exact propsLoop_mono Hrec ps visited s [] pr hl
    · cases h; exact processedLe_refl _

theorem afterNamed_mono
    {rec : Option Nat → List TypeId → SerState → Option (SchemaValue × SerState)}
    (Hrec : ∀ t v s out, rec t v s = some out →
      processedLe s.processed out.2.processed)
    (env : List TypeNode) (n : TypeNode) (visited : List TypeId)
    (s : SerState) (out : SchemaValue × SerState)
    (h : afterNamed rec env n visited s = some out) :
    processedLe s.processed out.2.processed := by
  unfold afterNamed at h
  cases hu : n.union with
  | some ms =>
    rw [hu] at h
    simp only [] at h
    exact unionBranch_mono Hrec env ms visited s out h
  | none =>
    rw [hu] at h
    simp only [] at h
    split_ifs at h
    · exact arrayBranch_mono Hrec n visited s out h
    · exact objectOrFallback_mono Hrec n visited s out h

theorem namedOrRest_mono
    {rec : Option Nat → List TypeId → SerState → Option (SchemaValue × SerState)}
    (Hrec : ∀ t v s out, rec t v s = some out →
      processedLe s.processed out.2.processed)
    (env : List TypeNode) (tdefs : List TDef) (n : TypeNode)
    (visited : List TypeId) (s : SerState) (out : SchemaValue × SerState)
    (h : namedOrRest rec env tdefs n visited s = some out) :
    processedLe s.processed out.2.processed := by
  unfold namedOrRest at h
  cases hsym : n.symbol with
  | none =>
    rw [hsym] at h
    simp only [] at h
    exact afterNamed_mono Hrec env n visited s out h
  | some sy =>
    rw [hsym] at h
    simp only [] at h
    by_cases hname : (sy.name != "" && !(isBuiltInType sy.name)) = true
    case neg =>
      rw [if_neg hname] at h
      exact afterNamed_mono Hrec env n visited s out h
    case pos =>
      rw [if_pos hname] at h
      cases hfind : tdefs.find?
          (fun d => d.name == sy.name && !(isBuiltInType sy.name)) with
      | none =>
        rw [hfind] at h
        simp only [] at h
        exact afterNamed_mono Hrec env n visited s out h
      | some ti =>
        rw [hfind] at h
        simp only [] at h
        by_cases hproc : elemStr sy.name s.processed = true
        case pos =>
          rw [if_pos hproc] at h
          exact afterNamed_mono Hrec env n visited s out h
        case neg =>
          rw [if_neg hproc] at h
          cases hps : (env[ti.ref]?).bind TypeNode.props with
          | none =>
            rw [hps] at h
            simp only [] at h
            exact processedLe_trans (processedLe_cons sy.name s.processed)
              (afterNamed_mono Hrec env n visited _ out h)
          | some ps =>
            rw [hps] at h
            simp only [] at h
            cases hl : propsLoop rec visited ps
                { s with processed := sy.name :: s.processed } [] with
            | none => rw [hl] at h; cases h
            | some pr =>
              rw [hl] at h
              cases h
              exact processedLe_trans (processedLe_cons sy.name s.processed)
                (propsLoop_mono Hrec ps visited _ [] pr hl)

theorem serializeKinds_mono
    {rec : Option Nat → List TypeId → SerState → Option (SchemaValue × SerState)}
    (Hrec : ∀ t v s out, rec t v s = some out →
      processedLe s.processed out.2.processed)
    (env : List TypeNode) (tdefs : List TDef) (n : TypeNode)
    (visited : List TypeId) (s : SerState) (out : SchemaValue × SerState)
    (h : serializeKinds rec env tdefs n visited s = some out) :
    processedLe s.processed out.2.processed := by
  unfold serializeKinds at h
  split_ifs at h <;>
    first
      | (cases h; exact processedLe_refl _)
      | exact namedOrRest_mono Hrec env tdefs n visited s out h

theorem serializeType_mono (oracle : Nat → String) (env : List TypeNode)
    (tdefs : List TDef) :
    ∀ (fuel : Nat) (t : Option Nat) (visited : List TypeId) (s : SerState)
      (out : SchemaValue × SerState),
      serializeType oracle env tdefs fuel t visited s = some out →
      processedLe s.processed out.2.processed := by
  intro fuel
  induction fuel with
  | zero => intro t v s out h; cases h
  | succ fuel ih =>
    intro t v s out h
    unfold serializeType serializeStep at h
    cases t with
    | none => cases h; exact processedLe_refl _
    | some r =>
      simp only [] at h
      cases hn : env[r]? with
      | none => rw [hn] at h; simp only [] at h; cases h; exact processedLe_refl _
      | some n =>
        rw [hn] at h
        simp only [] at h
        have hkeep := getTypeId_processed oracle n s
        cases hg : getTypeId oracle n s with
        | mk tid s1 =>
          rw [hg] at h hkeep
          simp only at h hkeep
          rw [← hkeep]
          split_ifs at h
          · cases h; exact processedLe_refl _
          · exact serializeKinds_mono
              (fun t' v' s' out' hr => ih t' v' s' out' hr)
              env tdefs n (tid :: v) s1 out h

theorem registryLoop_processed_mono (oracle : Nat → String)
    (env : List TypeNode) (tdefs : List TDef) (fuel : Nat) :
    ∀ (ds : List TDef) (reg : List (String × SchemaValue × String))
      (st : SerState) (out : List (String × SchemaValue × String) × SerState),
      registryLoop oracle env tdefs fuel ds reg st = some out →
      processedLe st.processed out.2.processed := by
  intro ds
  induction ds with
  | nil =>
    intro reg st out h
    cases h
    exact processedLe_refl _
  | cons d ds ih =>
    intro reg st out h
    unfold registryLoop at h
    by_cases hproc : elemStr d.name st.processed = true
    · rw [if_pos hproc] at h
      exact ih reg st out h
    · rw [if_neg hproc] at h
      cases hs : serializeType oracle env tdefs fuel (some d.ref) [] st with
      | none => rw [hs] at h; cases h
      | some pr =>
        rw [hs] at h
        simp only [] at h
        exact processedLe_trans
          (serializeType_mono oracle env tdefs fuel (some d.ref) [] st pr hs)
          (ih _ pr.2 out h)
  
theorem registryLoop_reg_preserved (oracle : Nat → String)
    (env : List TypeNode) (tdefs : List TDef) (fuel : Nat) :
    ∀ (ds : List TDef) (reg : List (String × SchemaValue × String))
      (st : SerState) (out : List (String × SchemaValue × String) × SerState),
      registryLoop oracle env tdefs fuel ds reg st = some out →
      ∀ e ∈ reg, e ∈ out.1 := by
  intro ds
  induction ds with
  | nil =>
    intro reg st out h
    cases h
    intro e he
    exact he
  | cons d ds ih =>
    intro reg st out h
    unfold registryLoop at h
    by_cases hproc : elemStr d.name st.processed = true
    · rw [if_pos hproc] at h
      exact ih reg st out h
    · rw [if_neg hproc] at h
      cases hs : serializeType oracle env tdefs fuel (some d.ref) [] st with
      | none => rw [hs] at h; cases h
      | some pr =>
        rw [hs] at h
        simp only [] at h
        intro e he
        exact ih _ pr.2 out h e (by simp [he])

theorem registryLoop_mem_or_processed (oracle : Nat → String)
    (env : List TypeNode) (tdefs : List TDef) (fuel : Nat) :
    ∀ (ds : List TDef) (reg : List (String × SchemaValue × String))
      (st : SerState) (out : List (String × SchemaValue × String) × SerState),
      registryLoop oracle env tdefs fuel ds reg st = some out →
      ∀ d ∈ ds, (∃ e ∈ out.1, e.1 = d.name) ∨
        elemStr d.name out.2.processed = true := by
  intro ds
  induction ds with
  | nil =>
    intro reg st out h d hd
    cases hd
  | cons d0 ds ih =>
    intro reg st out h d hd
    unfold registryLoop at h
    rcases List.mem_cons.mp hd with rfl | hd'
    · by_cases hproc : elemStr d.name st.processed = true
      · rw [if_pos hproc] at h
        exact Or.inr (registryLoop_processed_mono oracle env tdefs fuel ds reg
          st out h d.name hproc)
      · rw [if_neg hproc] at h
        cases hs : serializeType oracle env tdefs fuel (some d.ref) [] st with
        | none => rw [hs] at h; cases h
        | some pr =>
          rw [hs] at h
          simp only [] at h
          refine Or.inl ⟨(d.name, pr.1, d.file), ?_, rfl⟩
          exact registryLoop_reg_preserved oracle env tdefs fuel ds _ pr.2 out
            h (d.name, pr.1, d.file) (by simp)
    · by_cases hproc : elemStr d0.name st.processed = true
      · rw [if_pos hproc] at h
        exact ih reg st out h d hd'
      · rw [if_neg hproc] at h
        cases hs : serializeType oracle env tdefs fuel (some d0.ref) [] st with
        | none => rw [hs] at h; cases h
        | some pr =>
          rw [hs] at h
          simp only [] at h
          exact ih _ pr.2 out h d hd'


/-- C3 counterexample: with `type A = { b: B }` collected before
`type B = { x: string }`, expanding `A` marks `"B"` processed, so the
registry loop skips `B` and the emitted `typeAliases` keys are only
`["A"]` although both names were collected — refuting the claim as
stated. -/
theorem registry_missing_nested_counterexample :
    (buildTypeRegistry oracleA envReg tdefsReg 10).map
        (fun pr => pr.1.map Prod.fst) = some ["A"] ∧
    tdefsReg.map TDef.name = ["A", "B"] :=
  ⟨rfl, rfl⟩

/-- C3 (amended): every collected name either receives a `typeAliases`
entry or is in the processed-names set when the run ends — a name first
expanded as a nested reference inside an earlier entry's expansion is
marked processed and is then absent from the registry. -/
theorem registry_entry_or_processed
    (oracle : Nat → String) (env : List TypeNode) (tdefs : List TDef)
    (fuel : Nat) (out : List (String × SchemaValue × String) × SerState)
    (h : buildTypeRegistry oracle env tdefs fuel = some out) :
    ∀ d ∈ tdefs, (∃ e ∈ out.1, e.1 = d.name) ∨
      elemStr d.name out.2.processed = true :=
  registryLoop_mem_or_processed oracle env tdefs fuel tdefs [] ⟨[], 0⟩ out h

/-- C3 witness: on the registry fixture the collected name `"B"` has no
entry but is in the final processed set. -/
theorem registry_entry_or_processed_witness :
    (∃ e ∈ [("A", SchemaValue.obj
        [("b", SchemaValue.obj [("x", SchemaValue.str "string")])], "a.ts")],
      e.1 = "B") ∨
    elemStr "B" ["B", "A"] = true :=
  registry_entry_or_processed oracleA envReg tdefsReg 10
    ([("A", SchemaValue.obj
        [("b", SchemaValue.obj [("x", SchemaValue.str "string")])], "a.ts")],
      ⟨["B", "A"], 0⟩) rfl ⟨"B", 1, "b.ts"⟩ (by decide)


theorem elemId_eq_true_iff {x : TypeId} : ∀ {v : List TypeId},
    elemId x v = true ↔ x ∈ v := by
  intro v
  induction v with
  | nil => simp [elemId]
  | cons y ys ih =>
    unfold elemId
    by_cases h : x = y
    · simp [h]
    · simp [h, ih]

theorem propsLoop_total
    {rec : Option Nat → List TypeId → SerState → Option (SchemaValue × SerState)}
    {visited : List TypeId}
    (Hrec : ∀ t' s', ∃ out, rec t' visited s' = some out) :
    ∀ (ps : List PropSym) (s : SerState) (acc : List (String × SchemaValue)),
      ∃ out, propsLoop rec visited ps s acc = some out := by
  intro ps
  induction ps with
  | nil => intro s acc; exact ⟨(acc, s), rfl⟩
  | cons p rest ih =>
    intro s acc
    unfold propsLoop
    by_cases hskip : (jsStartsWith p.name "__" || p.isMethod) = true
    · rw [if_pos hskip]; exact ih s acc
    · rw [if_neg hskip]
      cases hty : p.ty with
      | none => exact ih s acc
      | some r =>
        simp only []
        obtain ⟨out, hout⟩ := Hrec (some r) s
        rw [hout]
        simp only []
        exact ih out.2 (setKey acc p.name out.1)

theorem afterNamed_total
    {rec : Option Nat → List TypeId → SerState → Option (SchemaValue × SerState)}
    {visited : List TypeId}
    (Hrec : ∀ t' s', ∃ out, rec t' visited s' = some out)
    (env : List TypeNode) (n : TypeNode) (s : SerState) :
    ∃ out, afterNamed rec env n visited s = some out := by
  unfold afterNamed
  cases hu : n.union with
  | some ms =>
    simp only []
    unfold unionBranch
    split_ifs
    · exact ⟨_, rfl⟩
    · exact ⟨_, rfl⟩
    · cases hf : ms.find? (fun m =>
          !(((env[m]?).map (fun t => t.fUndef || t.fNull)).getD false)) with
      | none => exact ⟨_, rfl⟩
      | some m => exact Hrec (some m) s
  | none =>
    simp only []
    split_ifs
    · unfold arrayBranch
      cases hta : n.typeArgs with
      | none => exact ⟨_, rfl⟩
      | some args =>
        simp only []
        obtain ⟨out, hout⟩ := Hrec args.head? s
        rw [hout]
        exact ⟨_, rfl⟩
    · unfold objectOrFallback
      cases hp : n.props with
      | none => exact ⟨_, rfl⟩
      | some ps =>
        simp only []
        split_ifs
        · obtain ⟨out, hout⟩ := propsLoop_total Hrec ps s []
          rw [hout]
          exact ⟨_, rfl⟩
        · exact ⟨_, rfl⟩

theorem serializeKinds_total
    {rec : Option Nat → List TypeId → SerState → Option (SchemaValue × SerState)}
    {visited : List TypeId}
    (Hrec : ∀ t' s', ∃ out, rec t' visited s' = some out)
    (env : List TypeNode) (tdefs : List TDef) (n : TypeNode) (s : SerState) :
    ∃ out, serializeKinds rec env tdefs n visited s = some out := by
  unfold serializeKinds
  split_ifs
  any_goals exact ⟨_, rfl⟩
  unfold namedOrRest
  cases hsym : n.symbol with
  | none => exact afterNamed_total Hrec env n s
  | some sy =>
    simp only []
    by_cases hname : (sy.name != "" && !(isBuiltInType sy.name)) = true
    case neg =>
      rw [if_neg hname]
      exact afterNamed_total Hrec env n s
    case pos =>
      rw [if_pos hname]
      cases hfind : tdefs.find?
          (fun d => d.name == sy.name && !(isBuiltInType sy.name)) with
      | none =>
        simp only []
        exact afterNamed_total Hrec env n s
      | some ti =>
        simp only []
        by_cases hproc : elemStr sy.name s.processed = true
        case pos =>
          rw [if_pos hproc]
          exact afterNamed_total Hrec env n s
        case neg =>
          rw [if_neg hproc]
          cases hps : (env[ti.ref]?).bind TypeNode.props with
          | none =>
            simp only []
            exact afterNamed_total Hrec env n _
          | some ps =>
            simp only []
            obtain ⟨out, hout⟩ := propsLoop_total Hrec ps
              { s with processed := sy.name :: s.processed } []
            rw [hout]
            exact ⟨_, rfl⟩

/-- C2 (amended): serializeType never throws — it is a total function into
schema values — and, provided every handle in the heap carries a stable
identity, it returns some SchemaValue for every input handle (including
null/absent handles and handles matching no classification rule, which get
`"any"` or the fallback signature): the visited set grows along every path,
bounded by the heap's stable identities. -/
theorem serialize_total_of_stable
    (oracle : Nat → String) (env : List TypeNode) (tdefs : List TDef)
    (hstable : allStable env) :
    ∀ (fuel : Nat) (t : Option Nat) (visited : List TypeId) (st : SerState),
      (envIds env \ visited.toFinset).card < fuel →
      ∃ out, serializeType oracle env tdefs fuel t visited st = some out := by
  intro fuel
  induction fuel with
  | zero => intro t v st h; exact absurd h (Nat.not_lt_zero _)
  | succ fuel ih =>
    intro t v st hcard
    cases t with
    | none => exact ⟨(.str "any", st), by simp [serializeType, serializeStep]⟩
    | some r =>
      cases hn : env[r]? with
      | none =>
        refine ⟨(.str "any", st), ?_⟩
        simp [serializeType, serializeStep, hn]
      | some n =>
        have hmem : n ∈ env := List.getElem?_mem hn
        have hsome := hstable n hmem
        obtain ⟨tid, htid⟩ := Option.isSome_iff_exists.mp hsome
        by_cases hvis : elemId tid v = true
        · exact ⟨(.str "any", st),
            serializeType_revisit oracle tdefs fuel hn htid hvis st⟩
        · rw [serializeType_succ_stable oracle tdefs fuel hn htid
            (Bool.not_eq_true _ ▸ hvis) st]
          have htid_env : tid ∈ envIds env := by
            unfold envIds
            rw [List.mem_toFinset, List.mem_filterMap]
            exact ⟨n, hmem, htid⟩
          have htid_nv : tid ∉ v.toFinset := by
            rw [List.mem_toFinset]
            intro hc
            exact hvis (elemId_eq_true_iff.mpr hc)
          have hpos : 0 < (envIds env \ v.toFinset).card :=
            Finset.card_pos.mpr ⟨tid, Finset.mem_sdiff.mpr ⟨htid_env, htid_nv⟩⟩
          have hcard' : (envIds env \ (tid :: v).toFinset).card < fuel := by
            rw [List.toFinset_cons, Finset.sdiff_insert,
              Finset.card_erase_of_mem (Finset.mem_sdiff.mpr ⟨htid_env, htid_nv⟩)]
            omega
          exact serializeKinds_total
            (fun t' s' => ih t' (tid :: v) s' hcard') env tdefs n st
  
theorem serializeType_succ_unstable {env : List TypeNode} {r : Nat}
    {n : TypeNode} {visited : List TypeId}
    (oracle : Nat → String) (tdefs : List TDef) (fuel : Nat)
    (hn : env[r]? = some n) (hid : stableId n = none)
    (st : SerState)
    (hvis : elemId (Sum.inr (oracle st.k)) visited = false) :
    serializeType oracle env tdefs (fuel + 1) (some r) visited st =
      serializeKinds
        (fun t' v' st' => serializeType oracle env tdefs fuel t' v' st')
        env tdefs n (Sum.inr (oracle st.k) :: visited)
        { st with k := st.k + 1 } := by
  simp only [serializeType, serializeStep, hn, getTypeId_of_unstable hid, hvis]
  simp

/-- C2 counterexample: on an anonymous self-referential shape (no stable
identity anywhere), every visit draws a fresh token, the visited set never
matches, and the recursion never returns — `serialize` is not total, it
diverges (in the source: unbounded recursion), refuting the claim as
stated. -/
theorem serialize_anon_selfloop_diverges :
    divergesAt oracleA envAnon [] (some 0) [] ⟨[], 0⟩ := by
  have key : ∀ (fuel k : Nat) (v : List TypeId) (p : List String),
      (∀ x ∈ v, ∃ s, x = Sum.inr s ∧ s.length < k + 1) →
      serializeType oracleA envAnon [] fuel (some 0) v ⟨p, k⟩ = none := by
    intro fuel
    induction fuel with
    | zero => intro k v p hv; rfl
    | succ fuel ih =>
      intro k v p hv
      have hn : envAnon[0]? = some anonLoop := rfl
      have hvis : elemId (Sum.inr (oracleA k)) v = false := by
        cases hc : elemId (Sum.inr (oracleA k)) v with
        | false => rfl
        | true =>
          obtain ⟨s, hs, hlen⟩ := hv _ (elemId_eq_true_iff.mp hc)
          have hsk : s = oracleA k := ((Sum.inr.injEq _ _).mp hs).symm
          rw [hsk] at hlen
          have : (oracleA k).length = k + 1 := by
            show (String.mk (List.replicate (k + 1) 'a')).length = k + 1
            show (List.replicate (k + 1) 'a').length = k + 1
            simp
          omega
      rw [serializeType_succ_unstable oracleA [] fuel hn rfl ⟨p, k⟩ hvis,
        serializeKinds_skip (show primTag anonLoop = none from rfl)
          (show anonLoop.isLiteral = false from rfl),
        namedOrRest_noSymbol (show anonLoop.symbol = none from rfl)]
      unfold afterNamed objectOrFallback
      simp only [show anonLoop.union = none from rfl,
        show anonLoop.isArrayType = false from rfl,
        show anonLoop.props = some [⟨"self", false, some 0⟩] from rfl,
        Bool.false_eq_true, if_false]
      rw [if_pos (by simp)]
      unfold propsLoop
      simp only [show jsStartsWith "self" "__" = false from rfl,
        Bool.false_or, Bool.false_eq_true, if_false]
      rw [ih (k + 1) _ p ?_]
      · intro x hx
        rcases List.mem_cons.mp hx with rfl | hx'
        · refine ⟨oracleA k, rfl, ?_⟩
          have : (oracleA k).length = k + 1 := by
            show (List.replicate (k + 1) 'a').length = k + 1
            simp
          omega
        · obtain ⟨s, hs, hlen⟩ := hv x hx'
          exact ⟨s, hs, by omega⟩
  intro fuel
  exact key fuel 0 [] [] (by intro x hx; cases hx)


/-- C2 witness: the all-stable `Node` heap serializes with fuel 2. -/
theorem serialize_total_of_stable_witness :
    allStable envSelf ∧
    ∃ out, serializeType oracleA envSelf tdefsSelf 2 (some 0) [] ⟨[], 0⟩ =
      some out :=
  ⟨by unfold allStable; decide,
   serialize_total_of_stable oracleA envSelf tdefsSelf
    (by unfold allStable; decide) 2 (some 0) [] ⟨[], 0⟩ (by decide)⟩


/-- C9 counterexample: with the token oracle modelling `Math.random`, two
runs of the registry pass on the same unchanged heap produce different
output documents — a run whose two synthetic per-call tokens collide
short-circuits the inner shape to `"any"` while a run with distinct tokens
expands it to `"Z"` — refuting run-to-run determinism of the synthetic
identity step as stated. -/
theorem registry_token_collision_counterexample :
    buildTypeRegistry oracleA envTok tdefsTok 10 =
      some ([("X", .obj [("a", .obj [("b", .str "Z")])], "x.ts")], ⟨["X"], 2⟩) ∧
    buildTypeRegistry oracleT envTok tdefsTok 10 =
      some ([("X", .obj [("a", .obj [("b", .str "any")])], "x.ts")], ⟨["X"], 2⟩) ∧
    SchemaValue.str "Z" ≠ SchemaValue.str "any" :=
  ⟨rfl, rfl, fun h => by injection h with h'; exact absurd h' (by decide)⟩

theorem serializeType_oracle_irrelevant (env : List TypeNode)
    (tdefs : List TDef) (hstable : allStable env) (o1 o2 : Nat → String) :
    ∀ (fuel : Nat) (t : Option Nat) (v : List TypeId) (st : SerState),
      serializeType o1 env tdefs fuel t v st =
        serializeType o2 env tdefs fuel t v st := by
  intro fuel
  induction fuel with
  | zero => intro t v st; rfl
  | succ fuel ih =>
    intro t v st
    have hrec : (fun t' v' st' => serializeType o1 env tdefs fuel t' v' st') =
        (fun t' v' st' => serializeType o2 env tdefs fuel t' v' st') := by
      funext t' v' st'
      exact ih t' v' st'
    simp only [serializeType]
    rw [hrec]
    unfold serializeStep
    cases t with
    | none => rfl
    | some r =>
      simp only []
      cases hn : env[r]? with
      | none => rfl
      | some n =>
        simp only []
        obtain ⟨tid, htid⟩ := Option.isSome_iff_exists.mp
          (hstable n (List.getElem?_mem hn))
        rw [getTypeId_of_stable htid o1 st, getTypeId_of_stable htid o2 st]

theorem registryLoop_oracle_irrelevant (env : List TypeNode)
    (tdefs : List TDef) (hstable : allStable env) (o1 o2 : Nat → String)
    (fuel : Nat) :
    ∀ (ds : List TDef) (reg : List (String × SchemaValue × String))
      (st : SerState),
      registryLoop o1 env tdefs fuel ds reg st =
        registryLoop o2 env tdefs fuel ds reg st := by
  intro ds
  induction ds with
  | nil => intro reg st; rfl
  | cons d ds ih =>
    intro reg st
    unfold registryLoop
    by_cases hproc : elemStr d.name st.processed = true
    · rw [if_pos hproc, if_pos hproc]
      exact ih reg st
    · rw [if_neg hproc, if_neg hproc,
        serializeType_oracle_irrelevant env tdefs hstable o1 o2 fuel
          (some d.ref) [] st]
      cases serializeType o2 env tdefs fuel (some d.ref) [] st with
      | none => rfl
      | some pr =>
        simp only []
        exact ih _ pr.2

/-- C9 (amended): provided every handle carries a stable identity (so the
synthetic per-call token path is never taken), the emitted registry — and
hence the output document assembled from it — is independent of the token
oracle: re-running the extraction on an unchanged project produces an
identical document. -/
theorem buildTypeRegistry_oracle_irrelevant (env : List TypeNode)
    (tdefs : List TDef) (fuel : Nat) (hstable : allStable env)
    (o1 o2 : Nat → String) :
    buildTypeRegistry o1 env tdefs fuel = buildTypeRegistry o2 env tdefs fuel :=
  registryLoop_oracle_irrelevant env tdefs hstable o1 o2 fuel tdefs [] ⟨[], 0⟩

/-- C9 witness: on the all-stable registry fixture, two different token
oracles produce identical registries. -/
theorem buildTypeRegistry_oracle_irrelevant_witness :
    buildTypeRegistry oracleA envReg tdefsReg 10 =
      buildTypeRegistry oracleT envReg tdefsReg 10 :=
  buildTypeRegistry_oracle_irrelevant envReg tdefsReg 10
    (by unfold allStable; decide) oracleA oracleT


theorem agreeOff_cons {x : TypeId} {v w : List TypeId} (tid : TypeId)
    (h : agreeOff x v w) : agreeOff x (tid :: v) (tid :: w) := by
  intro y hy
  unfold elemId
  by_cases hyt : y = tid
  · simp [hyt]
  · simp [hyt, h y hy]

theorem propsLoop_vis
    {rec : Option Nat → List TypeId → SerState → Option (SchemaValue × SerState)}
    {x : TypeId} {ru : Nat}
    (Hrec : ∀ (t' : Option Nat) (v w : List TypeId) (s : SerState),
      (∀ rr, t' = some rr → rr ≠ ru) → agreeOff x v w →
      rec t' v s = rec t' w s) :
    ∀ (ps : List PropSym), (∀ p ∈ ps, ∀ rr, p.ty = some rr → rr ≠ ru) →
      ∀ (v w : List TypeId), agreeOff x v w →
      ∀ (s : SerState) (acc : List (String × SchemaValue)),
      propsLoop rec v ps s acc = propsLoop rec w ps s acc := by
  intro ps
  induction ps with
  | nil => intro _ v w _ s acc; rfl
  | cons p rest ih =>
    intro hps v w hvw s acc
    unfold propsLoop
    by_cases hskip : (jsStartsWith p.name "__" || p.isMethod) = true
    · rw [if_pos hskip, if_pos hskip]
      exact ih (fun q hq => hps q (by simp [hq])) v w hvw s acc
    · rw [if_neg hskip, if_neg hskip]
      cases hty : p.ty with
      | none => exact ih (fun q hq => hps q (by simp [hq])) v w hvw s acc
      | some r =>
        simp only []
        rw [Hrec (some r) v w s
          (fun rr hrr => by cases hrr; exact hps p (by simp) r hty) hvw]
        cases rec (some r) w s with
        | none => rfl
        | some pr =>
          simp only []
          exact ih (fun q hq => hps q (by simp [hq])) v w hvw pr.2
            (setKey acc p.name pr.1)

theorem afterNamed_vis
    {rec : Option Nat → List TypeId → SerState → Option (SchemaValue × SerState)}
    {x : TypeId} {ru : Nat}
    (Hrec : ∀ (t' : Option Nat) (v w : List TypeId) (s : SerState),
      (∀ rr, t' = some rr → rr ≠ ru) → agreeOff x v w →
      rec t' v s = rec t' w s)
    (env : List TypeNode) (n : TypeNode) (hn : ru ∉ nodeRefs n)
    (v w : List TypeId) (hvw : agreeOff x v w) (s : SerState) :
    afterNamed rec env n v s = afterNamed rec env n w s := by
  have hrefs := hn
  unfold nodeRefs at hrefs
  simp only [List.mem_append, not_or] at hrefs
  obtain ⟨⟨hprops, hunion⟩, hargs⟩ := hrefs
  unfold afterNamed
  cases hu : n.union with
  | some ms =>
    simp only []
    unfold unionBranch
    split_ifs
    · rfl
    · rfl
    · cases hf : ms.find? (fun m =>
          !(((env[m]?).map (fun t => t.fUndef || t.fNull)).getD false)) with
      | none => rfl
      | some m =>
        simp only []
        refine Hrec (some m) v w s (fun rr hrr => ?_) hvw
        cases hrr
        intro hc
        subst hc
        exact hunion (by rw [hu]; exact List.mem_of_find?_eq_some hf)
  | none =>
    simp only []
    split_ifs
    · unfold arrayBranch
      cases hta : n.typeArgs with
      | none => rfl
      | some args =>
        simp only []
        rw [Hrec args.head? v w s (fun rr hrr => ?_) hvw]
        intro hc
        subst hc
        exact hargs (by rw [hta]; exact List.mem_of_mem_head? hrr)
    · unfold objectOrFallback
      cases hp : n.props with
      | none => rfl
      | some ps =>
        simp only []
        split_ifs
        · rw [propsLoop_vis Hrec ps (fun p hp' rr hrr => ?_) v w hvw s []]
          intro hc
          subst hc
          refine hprops ?_
          rw [hp]
          simp only [Option.getD_some]
          exact List.mem_filterMap.mpr ⟨p, hp', hrr⟩
        · rfl

set_option maxHeartbeats 1000000 in
theorem serializeKinds_vis
    {rec : Option Nat → List TypeId → SerState → Option (SchemaValue × SerState)}
    {x : TypeId} {ru : Nat}
    (Hrec : ∀ (t' : Option Nat) (v w : List TypeId) (s : SerState),
      (∀ rr, t' = some rr → rr ≠ ru) → agreeOff x v w →
      rec t' v s = rec t' w s)
    (env : List TypeNode) (tdefs : List TDef)
    (Href : ∀ (rr : Nat) (n : TypeNode), env[rr]? = some n → ru ∉ nodeRefs n)
    (n : TypeNode) (hn : ru ∉ nodeRefs n)
    (v w : List TypeId) (hvw : agreeOff x v w) (s : SerState) :
    serializeKinds rec env tdefs n v s = serializeKinds rec env tdefs n w s := by
  unfold serializeKinds
  split_ifs
  any_goals rfl
  unfold namedOrRest
  cases hsym : n.symbol with
  | none => exact afterNamed_vis Hrec env n hn v w hvw s
  | some sy =>
    simp only []
    by_cases hname : (sy.name != "" && !(isBuiltInType sy.name)) = true
    case neg =>
      rw [if_neg hname, if_neg hname]
      exact afterNamed_vis Hrec env n hn v w hvw s
    case pos =>
      rw [if_pos hname, if_pos hname]
      cases hfind : tdefs.find?
          (fun d => d.name == sy.name && !(isBuiltInType sy.name)) with
      | none =>
        simp only []
        exact afterNamed_vis Hrec env n hn v w hvw s
      | some ti =>
        simp only []
        by_cases hproc : elemStr sy.name s.processed = true
        case pos =>
          rw [if_pos hproc, if_pos hproc]
          exact afterNamed_vis Hrec env n hn v w hvw s
        case neg =>
          rw [if_neg hproc, if_neg hproc]
          cases hps : (env[ti.ref]?).bind TypeNode.props with
          | none =>
            simp only []
            exact afterNamed_vis Hrec env n hn v w hvw _
          | some ps =>
            simp only []
            obtain ⟨tiNode, htiNode, htiprops⟩ := Option.bind_eq_some.mp hps
            have hti := Href ti.ref tiNode htiNode
            unfold nodeRefs at hti
            simp only [List.mem_append, not_or] at hti
            rw [propsLoop_vis Hrec ps (fun p hp' rr hrr => ?_) v w hvw _ []]
            intro hc
            subst hc
            refine hti.1.1 ?_
            rw [htiprops]
            exact List.mem_filterMap.mpr ⟨p, hp', hrr⟩

theorem serializeType_vis
    (oracle : Nat → String) (env : List TypeNode) (tdefs : List TDef)
    {x : TypeId} {ru : Nat}
    (Hx : ∃ uid, x = Sum.inl uid)
    (Hid : ∀ (rr : Nat) (n : TypeNode), rr ≠ ru → env[rr]? = some n →
      stableId n ≠ some x)
    (Href : ∀ (rr : Nat) (n : TypeNode), env[rr]? = some n → ru ∉ nodeRefs n) :
    ∀ (fuel : Nat) (t : Option Nat) (v w : List TypeId) (st : SerState),
      (∀ rr, t = some rr → rr ≠ ru) → agreeOff x v w →
      serializeType oracle env tdefs fuel t v st =
        serializeType oracle env tdefs fuel t w st := by
  intro fuel
  induction fuel with
  | zero => intro t v w st _ _; rfl
  | succ fuel ih =>
    intro t v w st hok hvw
    simp only [serializeType]
    unfold serializeStep
    cases t with
    | none => rfl
    | some r =>
      simp only []
      cases hn : env[r]? with
      | none => rfl
      | some n =>
        simp only []
        have hrru : r ≠ ru := hok r rfl
        have htidx : (getTypeId oracle n st).1 ≠ x := by
          cases hstable : stableId n with
          | none =>
            rw [getTypeId_of_unstable hstable]
            obtain ⟨uid, rfl⟩ := Hx
            simp
          | some tid =>
            rw [getTypeId_of_stable hstable]
            intro hc
            exact Hid r n hrru hn (hstable.trans (congrArg some hc))
        cases hg : getTypeId oracle n st with
        | mk tid st1 =>
          rw [hg] at htidx
          simp only [] at htidx ⊢
          rw [hvw tid htidx]
          by_cases hvis : elemId tid w = true
          · rw [if_pos hvis, if_pos hvis]
          · rw [if_neg hvis, if_neg hvis]
            exact serializeKinds_vis
              (fun t' v' w' s' hok' hvw' => ih t' v' w' s' hok' hvw')
              env tdefs Href n (Href r n hn) (tid :: v) (tid :: w)
              (agreeOff_cons tid hvw) st1

/-- C7: serializing `T | undefined` (or `T | null`) yields exactly the same
SchemaValue as serializing `T` directly — the first member that is neither
null nor undefined is recursed into alone, the rest discarded (the union's
own identity on the visited path is invisible to `T`'s traversal since no
reachable handle shares it) — and a union consisting entirely of
null/undefined members yields `"any"`. -/
theorem serialize_optional_union_unwrap
    (oracle : Nat → String) (env : List TypeNode) (tdefs : List TDef)
    (fuel ru rt rn i : Nat) (u tNode nNode : TypeNode) (st : SerState)
    (hu : env[ru]? = some u)
    (huid : u.id = some i) (hi : i ≠ 0)
    (hprim : primTag u = none) (hlit : u.isLiteral = false)
    (hsym : u.symbol = none)
    (humem : u.union = some [rt, rn])
    (ht : env[rt]? = some tNode)
    (htflags : tNode.fUndef = false ∧ tNode.fNull = false)
    (hnn : env[rn]? = some nNode)
    (hnundef : nNode.fUndef = true ∨ nNode.fNull = true)
    (hnsl : nNode.isStringLiteral = false) (hnbl : nNode.fBoolLit = false)
    (hrt : rt ≠ ru)
    (Hid : ∀ (rr : Nat) (n : TypeNode), rr ≠ ru → env[rr]? = some n →
      stableId n ≠ some (Sum.inl i))
    (Href : ∀ (rr : Nat) (n : TypeNode), env[rr]? = some n →
      ru ∉ nodeRefs n) :
    serializeType oracle env tdefs (fuel + 1) (some ru) [] st =
      serializeType oracle env tdefs fuel (some rt) [] st ∧
    (∀ (ru2 : Nat) (u2 : TypeNode) (ms : List Nat) (tid2 : TypeId)
        (visited : List TypeId) (st2 : SerState),
      env[ru2]? = some u2 → primTag u2 = none → u2.isLiteral = false →
      u2.symbol = none → u2.union = some ms → ms ≠ [] →
      stableId u2 = some tid2 → elemId tid2 visited = false →
      (∀ m ∈ ms, ∃ mn, env[m]? = some mn ∧
        (mn.fUndef = true ∨ mn.fNull = true) ∧
        mn.isStringLiteral = false ∧ mn.fBoolLit = false) →
      serializeType oracle env tdefs (fuel + 1) (some ru2) visited st2 =
        some (.str "any", st2)) := by
  constructor
  · have hstu : stableId u = some (Sum.inl i) := stableId_of_id huid hi
    rw [serializeType_succ_stable oracle tdefs fuel hu hstu
      (by simp [elemId]) st,
      serializeKinds_skip hprim hlit, namedOrRest_noSymbol hsym]
    unfold afterNamed
    simp only [humem]
    unfold unionBranch
    have hfind : List.find? (fun m =>
        !(((env[m]?).map (fun t => t.fUndef || t.fNull)).getD false))
        [rt, rn] = some rt := by
      rw [List.find?_cons_of_pos]
      simp [ht, htflags.1, htflags.2]
    rw [if_neg (by simp [hnn, hnsl]), if_neg (by simp [hnn, hnbl]), hfind]
    simp only []
    exact serializeType_vis oracle env tdefs ⟨i, rfl⟩ Hid Href fuel (some rt)
      [Sum.inl i] [] st (fun rr hrr => by cases hrr; exact hrt)
      (by
        intro y hy
        show elemId y [Sum.inl i] = elemId y []
        simp [elemId, hy])
  · intro ru2 u2 ms tid2 visited st2 hu2 hprim2 hlit2 hsym2 hum2 hms
      hstable2 hvis2 hmem
    rw [serializeType_succ_stable oracle tdefs fuel hu2 hstable2 hvis2 st2,
      serializeKinds_skip hprim2 hlit2, namedOrRest_noSymbol hsym2]
    unfold afterNamed
    simp only [hum2]
    unfold unionBranch
    obtain ⟨m0, hm0⟩ := List.exists_mem_of_ne_nil ms hms
    obtain ⟨mn0, hmn0, hund0, hsl0, hbl0⟩ := hmem m0 hm0
    have hNotSL : ¬((ms.all fun m =>
        ((env[m]?).map TypeNode.isStringLiteral).getD false) = true) := by
      intro hc
      have h2 := List.all_eq_true.mp hc m0 hm0
      rw [hmn0] at h2
      simp [hsl0] at h2
    have hNotBL : ¬(((ms.length == 2) && ms.all fun m =>
        ((env[m]?).map TypeNode.fBoolLit).getD false) = true) := by
      intro hc
      rw [Bool.and_eq_true] at hc
      have h2 := List.all_eq_true.mp hc.2 m0 hm0
      rw [hmn0] at h2
      simp [hbl0] at h2
    have hfindnone : ms.find? (fun m =>
        !(((env[m]?).map (fun t => t.fUndef || t.fNull)).getD false)) =
        none := by
      apply List.find?_eq_none.mpr
      intro m hm
      obtain ⟨mn, hmn, hun, _, _⟩ := hmem m hm
      rcases hun with hun | hun <;> simp [hmn, hun]
    rw [if_neg hNotSL, if_neg hNotBL, hfindnone]

/-- C7 witness: `string | undefined` serializes exactly as `string`, and
the union of only `undefined` serializes to `"any"`. -/
theorem serialize_optional_union_unwrap_witness :
    serializeType oracleA envOpt [] 2 (some 0) [] ⟨[], 0⟩ =
      serializeType oracleA envOpt [] 1 (some 1) [] ⟨[], 0⟩ ∧
    serializeType oracleA envOpt [] 2 (some 3) [] ⟨[], 0⟩ =
      some (.str "any", ⟨[], 0⟩) := by
  have hid : ∀ (rr : Nat) (n : TypeNode), rr ≠ 0 → envOpt[rr]? = some n →
      stableId n ≠ some (Sum.inl 83) := by
    intro rr n hne hn
    have hlt : rr < 4 := (List.getElem?_eq_some_iff.mp hn).1
    interval_cases rr
    · exact absurd rfl hne
    all_goals (injection hn with h2; subst h2; decide)
  have href : ∀ (rr : Nat) (n : TypeNode), envOpt[rr]? = some n →
      0 ∉ nodeRefs n := by
    intro rr n hn
    have hlt : rr < 4 := (List.getElem?_eq_some_iff.mp hn).1
    interval_cases rr <;> (injection hn with h2; subst h2; decide)
  have h := serialize_optional_union_unwrap oracleA envOpt [] 1 0 1 2 83
    uOpt tStr undefN ⟨[], 0⟩ rfl rfl (by decide) rfl rfl rfl rfl rfl
    ⟨rfl, rfl⟩ rfl (Or.inl rfl) rfl rfl (by decide) hid href
  exact ⟨h.1, h.2 3 uNull [2] (Sum.inl 84) [] ⟨[], 0⟩ rfl rfl rfl rfl rfl
    (by decide) rfl rfl (fun m hm => by
      simp only [List.mem_singleton] at hm
      subst hm
      exact ⟨undefN, rfl, Or.inl rfl, rfl, rfl⟩)⟩

end Abra
